import Mathlib

/-!
# Verification of the idiosync LDAP syncrepl watcher and trace codec

Shallow embedding of `idiosync/ldap.py` and `idiosync/freeipa.py`:
the syncrepl watcher dispatch (`LdapDatabase.watch` and its
`_watch_res_*` helpers), the LDAP attribute layer (`LdapAttributeDict`,
`LdapAttribute.__get__`, `LdapEntryUuidAttribute.__set__`), the FreeIPA
nonconformance correction (`IpaDatabase.watch`), and the trace codec
(`LdapResult.write` / `LdapResult.read`).

Python `dict` values are modelled as association lists with unique keys
in insertion order: `dictSet` is `d[k] = v` (update in place, or append
for a fresh key), `dictGet` is `d.get(k)`.  Python `str` values on the
watcher side are Lean `String`s; on the trace-codec side, where the code
manipulates text character by character, `str` is `List Char` and
`bytes` is `List Nat` (one entry per byte).
-/

namespace Idiosync

/-- `d[k] = v` on a Python dict modelled as an association list:
update the value in place if the key is present, else append. -/
def dictSet {α : Type} : List (String × α) → String → α → List (String × α)
  | [], k, v => [(k, v)]
  | (k', v') :: rest, k, v =>
      if k' = k then (k, v) :: rest else (k', v') :: dictSet rest k v

/-- `d.get(k)` on a Python dict modelled as an association list. -/
def dictGet {α : Type} : List (String × α) → String → Option α
  | [], _ => none
  | (k', v') :: rest, k => if k' = k then some v' else dictGet rest k

theorem dictGet_dictSet {α : Type} (d : List (String × α)) (k : String) (v : α) :
    dictGet (dictSet d k v) k = some v := by
  induction d with
  | nil => simp [dictSet, dictGet]
  | cons p rest ih =>
      obtain ⟨k', v'⟩ := p
      by_cases h : k' = k
      · simp [dictSet, dictGet, h]
      · simp [dictSet, dictGet, h, ih]

/-! ## UUID values (Python's `uuid` module)

`uuid.UUID` stores a 128-bit integer.  `str(u)` formats it as 32
lower-case hexadecimal digits in five dash-separated groups
(8-4-4-4-12); the constructor `uuid.UUID(s)` removes any `urn:` and
`uuid:` occurrences, strips surrounding braces, removes dashes,
requires exactly 32 hexadecimal digits and parses them as the integer.
Modelled from the documented canonical string forms (the CPython parser
additionally tolerates some `int()` quirks such as underscores, which
no caller in this repository relies on). -/

/-- A 128-bit UUID value, as Python's `uuid.UUID.int`. -/
abbrev UUID := Nat

/-- The character for a single hexadecimal digit, lower case. -/
def hexDigitChar (n : Nat) : Char :=
  if n < 10 then Char.ofNat (48 + n) else Char.ofNat (87 + n)

/-- The value of a hexadecimal digit character, if it is one. -/
def hexDigitVal (c : Char) : Option Nat :=
  if 48 ≤ c.toNat ∧ c.toNat ≤ 57 then some (c.toNat - 48)
  else if 97 ≤ c.toNat ∧ c.toNat ≤ 102 then some (c.toNat - 87)
  else if 65 ≤ c.toNat ∧ c.toNat ≤ 70 then some (c.toNat - 55)
  else none

/-- `n` hexadecimal digits of `v`, most significant first
(`'%0*x' % (n, v)` for `v < 16^n`). -/
def natToHex : Nat → Nat → List Char
  | 0, _ => []
  | n + 1, v => hexDigitChar (v / 16 ^ n) :: natToHex n (v % 16 ^ n)

/-- Parse a hexadecimal digit string (`int(s, 16)` on plain digits). -/
def hexFromDigits (cs : List Char) : Option Nat :=
  cs.foldl (fun acc c => acc.bind fun a => (hexDigitVal c).map fun d => a * 16 + d)
    (some 0)

theorem hexDigitVal_hexDigitChar_all :
    ∀ n, n < 16 → hexDigitVal (hexDigitChar n) = some n := by decide

theorem hexDigitVal_hexDigitChar {n : Nat} (h : n < 16) :
    hexDigitVal (hexDigitChar n) = some n :=
  hexDigitVal_hexDigitChar_all n h

theorem natToHex_length (n v : Nat) : (natToHex n v).length = n := by
  induction n generalizing v with
  | zero => simp [natToHex]
  | succ n ih => simp [natToHex, ih]

theorem hexFromDigits_natToHex_aux (n : Nat) :
    ∀ v a, v < 16 ^ n →
      (natToHex n v).foldl
        (fun acc c => acc.bind fun x => (hexDigitVal c).map fun d => x * 16 + d)
        (some a) = some (a * 16 ^ n + v) := by
  induction n with
  | zero => intro v a hv; simp [natToHex]; omega
  | succ n ih =>
      intro v a hv
      have hdig : v / 16 ^ n < 16 := by
        have h16 : 16 ^ (n + 1) = 16 ^ n * 16 := by ring
        rw [h16] at hv
        exact Nat.div_lt_of_lt_mul (by omega)
      have hrem : v % 16 ^ n < 16 ^ n :=
        Nat.mod_lt _ (Nat.pos_pow_of_pos n (by norm_num))
      simp only [natToHex, List.foldl_cons, hexDigitVal_hexDigitChar hdig]
      simp only [Option.some_bind, Option.map_some']
      rw [ih _ _ hrem]
      congr 1
      have hdm : 16 ^ n * (v / 16 ^ n) + v % 16 ^ n = v := Nat.div_add_mod v (16 ^ n)
      have h16 : 16 ^ (n + 1) = 16 ^ n * 16 := by ring
      have hexp : (a * 16 + v / 16 ^ n) * 16 ^ n + v % 16 ^ n
          = a * (16 ^ n * 16) + (16 ^ n * (v / 16 ^ n) + v % 16 ^ n) := by ring
      rw [h16, hexp, hdm]

theorem hexFromDigits_natToHex {n v : Nat} (hv : v < 16 ^ n) :
    hexFromDigits (natToHex n v) = some v := by
  have := hexFromDigits_natToHex_aux n v 0 hv
  simpa [hexFromDigits] using this

theorem hexDigitChar_ne_special :
    ∀ k, k < 16 → hexDigitChar k ≠ 'u' ∧ hexDigitChar k ≠ '{' ∧
      hexDigitChar k ≠ '}' ∧ hexDigitChar k ≠ '-' := by decide

/-- `leadsWith p s` : `s` begins with the pattern `p`. -/
def leadsWith : List Char → List Char → Bool
  | [], _ => true
  | _ :: _, [] => false
  | p :: ps, c :: cs => p = c && leadsWith ps cs

/-- Fuel-driven core of `removeAll`; the fuel bounds the number of
characters still to examine (the wrapper passes the string length). -/
def removeAllAux (pat : List Char) : Nat → List Char → List Char
  | _, [] => []
  | 0, s => s
  | fuel + 1, c :: rest =>
      if pat ≠ [] ∧ leadsWith pat (c :: rest) then
        removeAllAux pat fuel ((c :: rest).drop pat.length)
      else
        c :: removeAllAux pat fuel rest

/-- `s.replace(pat, '')` : remove every (left-to-right, non-overlapping)
occurrence of the non-empty pattern `pat` from `s`. -/
def removeAll (pat : List Char) (s : List Char) : List Char :=
  removeAllAux pat s.length s

theorem removeAllAux_of_head_notMem {p : Char} {ps : List Char} :
    ∀ (fuel : Nat) (s : List Char), s.length ≤ fuel → p ∉ s →
      removeAllAux (p :: ps) fuel s = s := by
  intro fuel
  induction fuel with
  | zero =>
      intro s hlen _
      cases s with
      | nil => rfl
      | cons c rest => simp at hlen
  | succ fuel ih =>
      intro s hlen h
      cases s with
      | nil => rfl
      | cons c rest =>
          have hpc : ¬(p = c) := fun hh => h (hh ▸ List.mem_cons_self c rest)
          have hlw : leadsWith (p :: ps) (c :: rest) = false := by
            simp [leadsWith, hpc]
          rw [removeAllAux]
          simp only [hlw]
          simp only [ne_eq, reduceCtorEq, not_false_eq_true, true_and,
            Bool.false_eq_true, if_false]
          rw [ih rest (by simp at hlen; omega)
            (fun hm => h (List.mem_cons_of_mem c hm))]

theorem removeAll_of_head_notMem {p : Char} {ps s : List Char}
    (h : p ∉ s) : removeAll (p :: ps) s = s :=
  removeAllAux_of_head_notMem s.length s le_rfl h

theorem removeAllAux_single (ch : Char) :
    ∀ (fuel : Nat) (s : List Char), s.length ≤ fuel →
      removeAllAux [ch] fuel s = s.filter (fun c => c ≠ ch) := by
  intro fuel
  induction fuel with
  | zero =>
      intro s hlen
      cases s with
      | nil => rfl
      | cons c rest => simp at hlen
  | succ fuel ih =>
      intro s hlen
      cases s with
      | nil => rfl
      | cons c rest =>
          have hrest : rest.length ≤ fuel := by simp at hlen; omega
          by_cases h : ch = c
          · subst h
            rw [removeAllAux]
            simp [leadsWith, ih rest hrest]
          · rw [removeAllAux]
            have hlw : leadsWith [ch] (c :: rest) = false := by
              simp [leadsWith, h]
            have hc : c ≠ ch := fun hh => h hh.symm
            simp only [hlw]
            simp only [ne_eq, reduceCtorEq, not_false_eq_true, true_and,
              Bool.false_eq_true, if_false]
            rw [ih rest hrest]
            simp [List.filter_cons, hc]

theorem removeAll_single (ch : Char) (s : List Char) :
    removeAll [ch] s = s.filter (fun c => c ≠ ch) :=
  removeAllAux_single ch s.length s le_rfl

/-- Membership in a string used as a character set (`s.strip('{}')`). -/
def charIn (cs : List Char) (c : Char) : Bool := cs.contains c

/-- `s.strip(chars)` : remove leading and trailing characters drawn
from the set `chars`. -/
def stripChars (chars : List Char) (s : List Char) : List Char :=
  ((s.dropWhile (charIn chars)).reverse.dropWhile (charIn chars)).reverse

theorem stripChars_of_not_mem {chars s : List Char}
    (h : ∀ c ∈ s, charIn chars c = false) : stripChars chars s = s := by
  have h1 : s.dropWhile (charIn chars) = s := by
    cases s with
    | nil => simp
    | cons c rest => simp [List.dropWhile, h c (List.mem_cons_self c rest)]
  rw [stripChars, h1]
  have h2 : s.reverse.dropWhile (charIn chars) = s.reverse := by
    cases hs : s.reverse with
    | nil => simp
    | cons c rest =>
        have : c ∈ s := by
          rw [← List.mem_reverse, hs]; exact List.mem_cons_self c rest
        simp [List.dropWhile, h c this]
  rw [h2, List.reverse_reverse]

/-- `str(u)` for a UUID: 32 lower-case hex digits in dash-separated
groups of 8-4-4-4-12. -/
def uuidStr (u : UUID) : List Char :=
  let h := natToHex 32 u
  h.take 8 ++ '-' :: (h.drop 8).take 4 ++ '-' :: (h.drop 12).take 4 ++
    '-' :: (h.drop 16).take 4 ++ '-' :: h.drop 20

/-- `uuid.UUID(s)` : parse a UUID string (canonical forms). -/
def uuidParse (s : List Char) : Option UUID :=
  let h1 := removeAll ('u' :: 'r' :: 'n' :: ':' :: []) s
  let h2 := removeAll ('u' :: 'u' :: 'i' :: 'd' :: ':' :: []) h1
  let h3 := stripChars ('{' :: '}' :: []) h2
  let h4 := removeAll ('-' :: []) h3
  if h4.length = 32 then
    (hexFromDigits h4).bind fun v => if v < 2 ^ 128 then some v else none
  else none

/-- Every character of the hex expansion of a bounded value is a
hex-digit character. -/
theorem natToHex_chars (n : Nat) :
    ∀ v, v < 16 ^ n → ∀ c ∈ natToHex n v, ∃ k, k < 16 ∧ c = hexDigitChar k := by
  induction n with
  | zero => simp [natToHex]
  | succ n ih =>
      intro v hv c hc
      simp only [natToHex, List.mem_cons] at hc
      rcases hc with h | h
      · refine ⟨v / 16 ^ n, ?_, h⟩
        have h16 : 16 ^ (n + 1) = 16 ^ n * 16 := by ring
        rw [h16] at hv
        exact Nat.div_lt_of_lt_mul (by omega)
      · exact ih _ (Nat.mod_lt _ (Nat.pos_pow_of_pos n (by norm_num))) c h

theorem uuidStr_mem {u : UUID} {c : Char} (hc : c ∈ uuidStr u) :
    c ∈ natToHex 32 u ∨ c = '-' := by
  simp only [uuidStr, List.mem_append, List.mem_cons] at hc
  rcases hc with ((((h | h) | h) | h) | h) <;>
    first
    | exact Or.inl (List.take_subset _ _ h)
    | exact Or.inl (List.drop_subset _ _ (List.take_subset _ _ h))
    | exact Or.inl (List.drop_subset _ _ h)
    | exact Or.inr h
    | rcases h with h | h
      <;> first
        | exact Or.inr h
        | exact Or.inl (List.drop_subset _ _ (List.take_subset _ _ h))
        | exact Or.inl (List.drop_subset _ _ h)

/-- `uuid.UUID(str(u)) == u` : parsing the canonical string form of a
UUID recovers the UUID. -/
theorem uuidParse_uuidStr {u : UUID} (hu : u < 2 ^ 128) :
    uuidParse (uuidStr u) = some u := by
  have h1632 : (16 : Nat) ^ 32 = 2 ^ 128 := by norm_num
  have h128 : u < 16 ^ 32 := by rw [h1632]; exact hu
  have hchars := natToHex_chars 32 u h128
  have hhex : ∀ c ∈ uuidStr u, c ≠ 'u' ∧ c ≠ '{' ∧ c ≠ '}' := by
    intro c hc
    rcases uuidStr_mem hc with h | h
    · obtain ⟨k, hk, rfl⟩ := hchars c h
      obtain ⟨n1, n2, n3, _⟩ := hexDigitChar_ne_special k hk
      exact ⟨n1, n2, n3⟩
    · subst h; refine ⟨by decide, by decide, by decide⟩
  have hu_notMem : 'u' ∉ uuidStr u := fun hm => (hhex _ hm).1 rfl
  have e1 : removeAll ('u' :: 'r' :: 'n' :: ':' :: []) (uuidStr u) = uuidStr u :=
    removeAll_of_head_notMem hu_notMem
  have e2 : removeAll ('u' :: 'u' :: 'i' :: 'd' :: ':' :: []) (uuidStr u) = uuidStr u :=
    removeAll_of_head_notMem hu_notMem
  have e3 : stripChars ('{' :: '}' :: []) (uuidStr u) = uuidStr u := by
    apply stripChars_of_not_mem
    intro c hc
    obtain ⟨-, n2, n3⟩ := hhex c hc
    simp [charIn, n2, n3]
  have e4 : removeAll ('-' :: []) (uuidStr u) = natToHex 32 u := by
    rw [removeAll_single]
    have hfilter : ∀ s : List Char, (∀ c ∈ s, c ≠ '-') →
        s.filter (fun c => c ≠ '-') = s := by
      intro s hs
      apply List.filter_eq_self.mpr
      intro c hc
      simpa using hs c hc
    have hpiece : ∀ s : List Char, s ⊆ natToHex 32 u →
        s.filter (fun c => c ≠ '-') = s := by
      intro s hsub
      apply hfilter
      intro c hc
      obtain ⟨k, hk, rfl⟩ := hchars c (hsub hc)
      exact (hexDigitChar_ne_special k hk).2.2.2
    have hdropDash : ∀ X : List Char,
        List.filter (fun c => decide (c ≠ '-')) ('-' :: X)
          = List.filter (fun c => decide (c ≠ '-')) X := by
      intro X
      rw [List.filter_cons]
      norm_num
    simp only [uuidStr]
    simp only [List.filter_append]
    rw [hdropDash, hdropDash, hdropDash, hdropDash]
    rw [hpiece _ (List.take_subset _ _),
        hpiece _ (fun c hc => List.drop_subset _ _ (List.take_subset _ _ hc)),
        hpiece _ (fun c hc => List.drop_subset _ _ (List.take_subset _ _ hc)),
        hpiece _ (fun c hc => List.drop_subset _ _ (List.take_subset _ _ hc)),
        hpiece _ (List.drop_subset _ _)]
    have hd8 : (natToHex 32 u).drop 8 = ((natToHex 32 u).drop 8).take 4 ++ (natToHex 32 u).drop 12 := by
      conv_lhs => rw [← List.take_append_drop 4 ((natToHex 32 u).drop 8)]
      rw [List.drop_drop]
    have hd12 : (natToHex 32 u).drop 12 = ((natToHex 32 u).drop 12).take 4 ++ (natToHex 32 u).drop 16 := by
      conv_lhs => rw [← List.take_append_drop 4 ((natToHex 32 u).drop 12)]
      rw [List.drop_drop]
    have hd16 : (natToHex 32 u).drop 16 = ((natToHex 32 u).drop 16).take 4 ++ (natToHex 32 u).drop 20 := by
      conv_lhs => rw [← List.take_append_drop 4 ((natToHex 32 u).drop 16)]
      rw [List.drop_drop]
    conv_rhs => rw [← List.take_append_drop 8 (natToHex 32 u), hd8, hd12, hd16]
    simp [List.append_assoc]
  rw [uuidParse]
  simp only [e1, e2, e3, e4]
  rw [natToHex_length, if_pos rfl, hexFromDigits_natToHex h128]
  simp only [Option.some_bind]
  rw [if_pos hu]

/-! ## The LDAP attribute layer

`LdapAttributeDict` forces all keys of a raw attribute mapping to lower
case (`{k.lower(): v for k, v in raw.items()}`); `LdapAttribute.__get__`
parses the values found under the attribute's lower-cased name, with a
missing attribute yielding the empty value list; a single-valued
attribute returns the first parsed value or `None`.
`LdapEntryUuidAttribute.__set__` stores `[str(value)]` under the
lower-cased attribute name.  Attribute values are modelled as decoded
strings (`bytes.decode` on the watcher side is the identity on the
ASCII data these attributes carry). -/

/-- `s.lower()` on a Python string (ASCII case folding, which is all
the attribute names and object classes in this repository need). -/
def pyLower (s : String) : String :=
  String.mk (s.data.map Char.toLower)

/-- A raw LDAP attribute mapping (attribute name to value list). -/
abbrev RawAttrs := List (String × List String)

/-- `LdapAttributeDict(raw)` : force all keys to lower case, with later
duplicates overwriting earlier ones as in a Python dict comprehension. -/
def ldapAttributeDict (raw : RawAttrs) : RawAttrs :=
  raw.foldl (fun acc kv => dictSet acc (pyLower kv.1) kv.2) []

/-- An LDAP directory entry (`LdapEntry`): distinguished name and
attribute dictionary. -/
structure LdapEntry where
  dn : String
  attrs : RawAttrs
deriving DecidableEq, Repr

/-- `LdapEntry(dn, attrs)` : `__post_init__` lower-cases the raw keys. -/
def mkLdapEntry (dn : String) (attrs : RawAttrs) : LdapEntry :=
  ⟨dn, ldapAttributeDict attrs⟩

/-- `instance.attrs.get(self.name.lower(), ())` : the raw values of an
attribute, empty when absent. -/
def ldapAttrValues (e : LdapEntry) (name : String) : List String :=
  (dictGet e.attrs (pyLower name)).getD []

/-- `LdapAttribute.__get__` for a multi-valued attribute. -/
def ldapAttrGetMulti {α : Type} (parse : String → α) (name : String)
    (e : LdapEntry) : List α :=
  (ldapAttrValues e name).map parse

/-- `LdapAttribute.__get__` for a single-valued attribute
(`attr[0] if attr else None`). -/
def ldapAttrGetSingle {α : Type} (parse : String → α) (name : String)
    (e : LdapEntry) : Option α :=
  (ldapAttrGetMulti parse name e).head?

/-- `uuid.UUID(value)` on a string attribute value. -/
def uuidParseStr (s : String) : Option UUID := uuidParse s.data

/-- `str(u)` as a string value. -/
def uuidStrS (u : UUID) : String := String.mk (uuidStr u)

/-- `LdapUuidAttribute.__get__` (single-valued): parse every stored
value as a UUID and return the first, `none` when the attribute is
absent.  The outer `none` models the `ValueError` raised by a value
that is not a UUID. -/
def ldapUuidGet (name : String) (e : LdapEntry) : Option (Option UUID) :=
  ((ldapAttrValues e name).mapM uuidParseStr).map List.head?

/-- `LdapEntryUuidAttribute.__set__` : store `[str(value)]` under the
lower-cased attribute name. -/
def ldapUuidSet (name : String) (e : LdapEntry) (u : UUID) : LdapEntry :=
  { e with attrs := dictSet e.attrs (pyLower name) [uuidStrS u] }

/-! ## The syncrepl watcher

Event values and the sync-info message are containers defined in
`idiosync/base.py` and `idiosync/syncrepl.py`, which are not part of
this snapshot.  Modelled from the spec: `Event` is the closed set
`ChangedEntry` (yielded as the classified entry itself, `User` or
`Group`), `UnchangedSyncIds`, `DeletedSyncIds`,
`RefreshComplete(autodelete)`, `SyncCookie`; a sync-info message
carries exactly one of a new cookie, a refresh-delete marker, a
refresh-present marker, or a sync-id set.  The dispatch logic proved
here is `LdapDatabase.watch` and its helpers in `idiosync/ldap.py`. -/

/-- A watcher event (the `Event` model of `idiosync/base.py`,
modelled from the spec; a changed entry is yielded as the entry itself,
tagged by the constructor that classified it: `User` or `Group`). -/
inductive Event where
  | changed (isUser : Bool) (entry : LdapEntry)
  | unchangedSyncIds (ids : List UUID)
  | deletedSyncIds (ids : List UUID)
  | refreshComplete (autodelete : Bool)
  | syncCookie (cookie : String)
deriving DecidableEq, Repr

/-- Errors raised by the watcher: the exception classes of
`idiosync/ldap.py`, plus the builtin `KeyError`/`ValueError`/`TypeError`
escapes. -/
inductive LdapError where
  | protocolError (msg : String)
  | unrecognisedEntry (dn : String)
  | syncIdMismatch (syncid other : UUID) (dn : String)
  | keyError
  | valueError
  | typeError
deriving DecidableEq, Repr

/-- The decoded `syncStateControl` attached to a search-entry response
(decoded by `python-ldap`; `entryUUID` is always a valid UUID there). -/
structure SyncStateControl where
  state : String
  entryUUID : UUID
  cookie : Option String
deriving DecidableEq, Repr

/-- The decoded `syncDoneControl` attached to a search-result response. -/
structure SyncDoneControl where
  cookie : Option String
  refreshDeletes : Bool
deriving DecidableEq, Repr

/-- A refresh-phase marker inside a sync-info message
(`refreshDelete`/`refreshPresent`): optional cookie and the
`refreshDone` flag. -/
structure RefreshInfo where
  cookie : Option String
  refreshDone : Bool
deriving DecidableEq, Repr

/-- A `syncIdSet` inside a sync-info message. -/
structure SyncIdSetInfo where
  cookie : Option String
  refreshDeletes : Bool
  syncUUIDs : List UUID
deriving DecidableEq, Repr

/-- Modelled from the spec: the decoded `syncInfoValue` of an
intermediate response (`idiosync/syncrepl.py` is not in this
snapshot); it carries at most one of the four component shapes. -/
structure SyncInfoMessage where
  newcookie : Option String
  refreshDelete : Option RefreshInfo
  refreshPresent : Option RefreshInfo
  syncIdSet : Option SyncIdSetInfo
deriving DecidableEq, Repr

/-- The database context the watcher consults: the configured User and
Group object classes and the permanent-identifier attribute name. -/
structure DbModel where
  userObjectClass : String
  groupObjectClass : String
  uuidAttr : String
deriving DecidableEq, Repr

/-- The stock `LdapDatabase` context (`LdapUser.model`,
`LdapGroup.model`, `LdapEntry.uuid`). -/
def ldapDb : DbModel := ⟨"person", "groupOfNames", "entryUUID"⟩

/-- `SyncCookie` tail events (`if cookie is not None: yield SyncCookie`). -/
def cookieEvents : Option String → List Event
  | none => []
  | some c => [Event.syncCookie c]

/-- The object-class scan of `_watch_res_search_entry`: first declared
class equal to the User object class wins (`some true`), then the
Group object class (`some false`); `none` means no match. -/
def classify (userOC groupOC : String) : List String → Option Bool
  | [] => none
  | v :: rest =>
      if pyLower v = userOC then some true
      else if pyLower v = groupOC then some false
      else classify userOC groupOC rest

/-- `LdapDatabase._watch_res_search_entry` : events yielded and the
error raised, if any, for one search-entry response datum. -/
def watchResSearchEntry (db : DbModel) (dn : String) (attrs : RawAttrs)
    (sync : SyncStateControl) : List Event × Option LdapError :=
  let userOC := pyLower db.userObjectClass
  let groupOC := pyLower db.groupObjectClass
  let syncid : UUID := sync.entryUUID
  if sync.state = "present" then
    (Event.unchangedSyncIds [syncid] :: cookieEvents sync.cookie, none)
  else if sync.state = "delete" then
    (Event.deletedSyncIds [syncid] :: cookieEvents sync.cookie, none)
  else
    let attrs2 := ldapAttributeDict attrs
    match dictGet attrs2 "objectclass" with
    | none => ([], some LdapError.keyError)
    | some ocs =>
        match classify userOC groupOC ocs with
        | none => ([], some (LdapError.unrecognisedEntry dn))
        | some isUser =>
            let entry : LdapEntry := ⟨dn, attrs2⟩
            match ldapUuidGet db.uuidAttr entry with
            | none => ([], some LdapError.valueError)
            | some none =>
                (Event.changed isUser (ldapUuidSet db.uuidAttr entry syncid) ::
                  cookieEvents sync.cookie, none)
            | some (some u) =>
                if u = syncid then
                  (Event.changed isUser entry :: cookieEvents sync.cookie, none)
                else ([], some (LdapError.syncIdMismatch syncid u dn))

/-- `LdapDatabase._watch_res_intermediate` : events yielded and the
error raised, if any, for one sync-info message. -/
def watchResIntermediate (sync : SyncInfoMessage) :
    List Event × Option LdapError :=
  match sync.newcookie with
  | some c => ([Event.syncCookie c], none)
  | none =>
      match sync.refreshDelete with
      | some rd =>
          ((if rd.refreshDone then [Event.refreshComplete false] else []) ++
            cookieEvents rd.cookie, none)
      | none =>
          match sync.refreshPresent with
          | some rp =>
              ((if rp.refreshDone then [Event.refreshComplete true] else []) ++
                cookieEvents rp.cookie, none)
          | none =>
              match sync.syncIdSet with
              | some sis =>
                  ((if sis.refreshDeletes then Event.deletedSyncIds sis.syncUUIDs
                    else Event.unchangedSyncIds sis.syncUUIDs) ::
                    cookieEvents sis.cookie, none)
              | none =>
                  ([], some (LdapError.protocolError "Unrecognised syncInfoValue"))

/-- `LdapDatabase._watch_res_search_result` : events yielded for the
final search-result response. -/
def watchResSearchResult (sync : SyncDoneControl) : List Event :=
  Event.refreshComplete (!sync.refreshDeletes) :: cookieEvents sync.cookie

/-! ## The watch loop (`LdapDatabase.watch`)

Response data tuples carry either decoded entry attributes (search
entries) or the decoded sync-info message (intermediate responses;
`python-ldap` hands over the raw BER value and `SyncInfoMessage`
decodes it — the decoded form is taken as input here).  Controls are
summed over the kinds the watcher inspects. -/

/-- `ldap.RES_SEARCH_ENTRY`. -/
def RES_SEARCH_ENTRY : Nat := 100

/-- `ldap.RES_SEARCH_RESULT`. -/
def RES_SEARCH_RESULT : Nat := 101

/-- `ldap.RES_INTERMEDIATE`. -/
def RES_INTERMEDIATE : Nat := 121

/-- The payload of one response data tuple. -/
inductive WatchPayload where
  | entryAttrs (attrs : RawAttrs)
  | message (msg : SyncInfoMessage)
deriving DecidableEq, Repr

/-- An entry-level response control, as the watcher classifies it
(`isinstance(ctrl, SyncStateControl)`). -/
inductive EntryCtrl where
  | syncState (sync : SyncStateControl)
  | otherCtrl
deriving DecidableEq, Repr

/-- A response-level control, as the watcher classifies it
(`isinstance(ctrl, SyncDoneControl)`). -/
inductive RespCtrl where
  | syncDone (sync : SyncDoneControl)
  | otherResp
deriving DecidableEq, Repr

/-- One data tuple of a raw search result: name (DN or response name),
payload, entry-level controls. -/
abbrev WatchDatum := String × WatchPayload × List EntryCtrl

/-- A raw protocol response as the watch loop dispatches on it. -/
structure WatchResponse where
  type : Nat
  data : List WatchDatum
  ctrls : List RespCtrl
deriving DecidableEq, Repr

/-- `SyncInfoMessage.responseName`. -/
def syncInfoResponseName : String := "1.3.6.1.4.1.4203.1.9.1.4"

/-- `next((ctrl for ctrl in ctrls if isinstance(ctrl, SyncStateControl)), None)`. -/
def findSyncState : List EntryCtrl → Option SyncStateControl
  | [] => none
  | EntryCtrl.syncState s :: _ => some s
  | EntryCtrl.otherCtrl :: rest => findSyncState rest

/-- `next((ctrl for ctrl in res.ctrls if isinstance(ctrl, SyncDoneControl)), None)`. -/
def findSyncDone : List RespCtrl → Option SyncDoneControl
  | [] => none
  | RespCtrl.syncDone s :: _ => some s
  | RespCtrl.otherResp :: rest => findSyncDone rest

/-- `next((SyncInfoMessage(msg) for rname, msg, ctrls in res.data
if rname == SyncInfoMessage.responseName), None)` — the first data
tuple whose name is the sync-info response name. -/
def findSyncInfo : List WatchDatum → Option WatchPayload
  | [] => none
  | (rname, payload, _) :: rest =>
      if rname = syncInfoResponseName then some payload else findSyncInfo rest

/-- One search-entry data tuple of the watch loop: locate the
sync-state control, then process the entry. -/
def entryTupleStep (db : DbModel) : WatchDatum → List Event × Option LdapError
  | (dn, payload, ctrls) =>
      match findSyncState ctrls with
      | none => ([], some (LdapError.protocolError "Missing syncStateControl"))
      | some sync =>
          match payload with
          | WatchPayload.entryAttrs attrs => watchResSearchEntry db dn attrs sync
          | WatchPayload.message _ => ([], some LdapError.typeError)

/-- All data tuples of a search-entry response, in order, stopping at
the first error (events already yielded are kept). -/
def entriesStep (db : DbModel) : List WatchDatum → List Event × Option LdapError
  | [] => ([], none)
  | d :: rest =>
      match entryTupleStep db d with
      | (evs, some e) => (evs, some e)
      | (evs, none) =>
          let r := entriesStep db rest
          (evs ++ r.1, r.2)

/-- One iteration of the watch loop: events yielded, error raised (if
any), and whether the loop `break`s (search-result response). -/
def watchStep (db : DbModel) (res : WatchResponse) :
    List Event × Option LdapError × Bool :=
  if res.type = RES_SEARCH_ENTRY then
    let r := entriesStep db res.data
    (r.1, r.2, false)
  else if res.type = RES_INTERMEDIATE then
    match findSyncInfo res.data with
    | none => ([], some (LdapError.protocolError "Missing syncInfoMessage"), false)
    | some (WatchPayload.message m) =>
        let r := watchResIntermediate m
        (r.1, r.2, false)
    | some (WatchPayload.entryAttrs _) => ([], some LdapError.typeError, false)
  else if res.type = RES_SEARCH_RESULT then
    match findSyncDone res.ctrls with
    | none => ([], some (LdapError.protocolError "Missing syncDoneControl"), false)
    | some sync => (watchResSearchResult sync, none, true)
  else ([], some (LdapError.protocolError "Unrecognised message type"), false)

/-- `LdapDatabase.watch` (with `trace=False`) over a finite sequence of
raw responses: the events yielded, and the error that aborted the
stream, if any.  A search-result response ends iteration; later
responses are never processed. -/
def watch (db : DbModel) : List WatchResponse → List Event × Option LdapError
  | [] => ([], none)
  | res :: rest =>
      match watchStep db res with
      | (evs, some e, _) => (evs, some e)
      | (evs, none, true) => (evs, none)
      | (evs, none, false) =>
          let r := watch db rest
          (evs ++ r.1, r.2)

/-! ## The FreeIPA nonconformance correction (`IpaDatabase.watch`) -/

/-- The per-event correction of `IpaDatabase.watch`: `incremental`
is `self.cookie is not None`.  Only `RefreshComplete` is touched. -/
def ipaFix (oneshot incremental : Bool) : Event → Event
  | Event.refreshComplete a =>
      if oneshot && incremental then Event.refreshComplete false
      else if !oneshot && !incremental then Event.refreshComplete true
      else Event.refreshComplete a
  | e => e

/-- `IpaDatabase.watch` : pass every upstream event through, correcting
`RefreshComplete.autodelete` per the mode/cookie table. -/
def ipaWatch (oneshot incremental : Bool) (events : List Event) : List Event :=
  events.map (ipaFix oneshot incremental)

/-! ## Claim theorems -/

/-- C2 : For every search-entry response processed by the Watcher,
dispatch on the sync-state control's tag is: state `present` yields
`UnchangedSyncIds` containing exactly the control's SyncId; state
`delete` yields `DeletedSyncIds` containing exactly that SyncId; any
other state decodes the full entry and classifies it as User or Group
by scanning its declared object classes with first match winning; and
in every branch a `SyncCookie` event is additionally yielded if and
only if the control carried a cookie. -/
theorem search_entry_dispatch (db : DbModel) (dn : String) (attrs : RawAttrs)
    (sync : SyncStateControl) :
    (sync.state = "present" →
      watchResSearchEntry db dn attrs sync
        = (Event.unchangedSyncIds [sync.entryUUID] :: cookieEvents sync.cookie, none)) ∧
    (sync.state = "delete" →
      watchResSearchEntry db dn attrs sync
        = (Event.deletedSyncIds [sync.entryUUID] :: cookieEvents sync.cookie, none)) ∧
    (∀ ocs isUser, sync.state ≠ "present" → sync.state ≠ "delete" →
      dictGet (ldapAttributeDict attrs) "objectclass" = some ocs →
      classify (pyLower db.userObjectClass) (pyLower db.groupObjectClass) ocs
        = some isUser →
      ldapUuidGet db.uuidAttr ⟨dn, ldapAttributeDict attrs⟩
        = some (some sync.entryUUID) →
      watchResSearchEntry db dn attrs sync
        = (Event.changed isUser ⟨dn, ldapAttributeDict attrs⟩ ::
            cookieEvents sync.cookie, none)) ∧
    (∀ evs, watchResSearchEntry db dn attrs sync = (evs, none) →
      ((∃ c, Event.syncCookie c ∈ evs) ↔ sync.cookie.isSome)) := by
  refine ⟨?_, ?_, ?_, ?_⟩
  · intro hp
    simp [watchResSearchEntry, hp]
  · intro hd
    simp [watchResSearchEntry, hd]
  · intro ocs isUser hp hd hocs hcl hug
    simp [watchResSearchEntry, hp, hd, hocs, hcl, hug]
  · intro evs h
    simp only [watchResSearchEntry] at h
    by_cases hp : sync.state = "present"
    · rw [if_pos hp] at h
      have hevs : evs = Event.unchangedSyncIds [sync.entryUUID] ::
          cookieEvents sync.cookie := (congrArg Prod.fst h).symm
      subst hevs
      cases hc : sync.cookie <;> simp [cookieEvents, hc]
    · rw [if_neg hp] at h
      by_cases hd : sync.state = "delete"
      · rw [if_pos hd] at h
        have hevs : evs = Event.deletedSyncIds [sync.entryUUID] ::
            cookieEvents sync.cookie := (congrArg Prod.fst h).symm
        subst hevs
        cases hc : sync.cookie <;> simp [cookieEvents, hc]
      · rw [if_neg hd] at h
        rcases hocs : dictGet (ldapAttributeDict attrs) "objectclass" with - | ocs <;>
          simp only [hocs] at h
        · have h2 := congrArg Prod.snd h
          simp at h2
        · rcases hcl : classify (pyLower db.userObjectClass)
              (pyLower db.groupObjectClass) ocs with - | isUser <;> simp only [hcl] at h
          · have h2 := congrArg Prod.snd h
            simp at h2
          · rcases hug : ldapUuidGet db.uuidAttr ⟨dn, ldapAttributeDict attrs⟩
              with - | u2 <;> simp only [hug] at h
            · have h2 := congrArg Prod.snd h
              simp at h2
            · rcases u2 with - | u <;> simp only [] at h
              · have hevs : evs = Event.changed isUser
                    (ldapUuidSet db.uuidAttr ⟨dn, ldapAttributeDict attrs⟩
                      sync.entryUUID) :: cookieEvents sync.cookie :=
                  (congrArg Prod.fst h).symm
                subst hevs
                cases hc : sync.cookie <;> simp [cookieEvents, hc]
              · by_cases hu : u = sync.entryUUID
                · rw [if_pos hu] at h
                  have hevs : evs = Event.changed isUser
                      ⟨dn, ldapAttributeDict attrs⟩ :: cookieEvents sync.cookie :=
                    (congrArg Prod.fst h).symm
                  subst hevs
                  cases hc : sync.cookie <;> simp [cookieEvents, hc]
                · rw [if_neg hu] at h
                  have h2 := congrArg Prod.snd h
                  simp at h2

/-- C2 witness : a concrete `present` response datum. -/
theorem search_entry_dispatch_witness :
    watchResSearchEntry ldapDb "cn=x" [] ⟨"present", 5, some "ck"⟩
      = (Event.unchangedSyncIds [5] :: cookieEvents (some "ck"), none) :=
  (search_entry_dispatch ldapDb "cn=x" [] ⟨"present", 5, some "ck"⟩).1 rfl

/-- C3 : For every intermediate (sync info) response the Watcher
handles exactly four shapes — a bare new-cookie message yields no
phase event; a refresh-delete done marker yields
`RefreshComplete(autodelete=False)` when its done flag is set; a
refresh-present done marker yields `RefreshComplete(autodelete=True)`
when its done flag is set; an id-set message yields `DeletedSyncIds`
when its delete flag is set and `UnchangedSyncIds` otherwise,
containing exactly the listed identifiers; any other shape raises a
fatal protocol error; and in every non-error branch a trailing
`SyncCookie` is yielded whenever the message carried a cookie. -/
theorem intermediate_dispatch (sync : SyncInfoMessage) :
    (∀ c, sync.newcookie = some c →
      watchResIntermediate sync = ([Event.syncCookie c], none)) ∧
    (∀ rd, sync.newcookie = none → sync.refreshDelete = some rd →
      watchResIntermediate sync
        = ((if rd.refreshDone then [Event.refreshComplete false] else []) ++
            cookieEvents rd.cookie, none)) ∧
    (∀ rp, sync.newcookie = none → sync.refreshDelete = none →
      sync.refreshPresent = some rp →
      watchResIntermediate sync
        = ((if rp.refreshDone then [Event.refreshComplete true] else []) ++
            cookieEvents rp.cookie, none)) ∧
    (∀ sis, sync.newcookie = none → sync.refreshDelete = none →
      sync.refreshPresent = none → sync.syncIdSet = some sis →
      watchResIntermediate sync
        = ((if sis.refreshDeletes then Event.deletedSyncIds sis.syncUUIDs
            else Event.unchangedSyncIds sis.syncUUIDs) ::
            cookieEvents sis.cookie, none)) ∧
    (sync.newcookie = none → sync.refreshDelete = none →
      sync.refreshPresent = none → sync.syncIdSet = none →
      watchResIntermediate sync
        = ([], some (LdapError.protocolError "Unrecognised syncInfoValue"))) := by
  refine ⟨?_, ?_, ?_, ?_, ?_⟩
  · intro c hnc
    simp [watchResIntermediate, hnc]
  · intro rd hnc hrd
    simp [watchResIntermediate, hnc, hrd]
  · intro rp hnc hrd hrp
    simp [watchResIntermediate, hnc, hrd, hrp]
  · intro sis hnc hrd hrp hsis
    simp [watchResIntermediate, hnc, hrd, hrp, hsis]
  · intro hnc hrd hrp hsis
    simp [watchResIntermediate, hnc, hrd, hrp, hsis]

/-- C3 witness : a concrete refresh-delete done marker with cookie. -/
theorem intermediate_dispatch_witness :
    watchResIntermediate ⟨none, some ⟨some "c", true⟩, none, none⟩
      = ((if true then [Event.refreshComplete false] else []) ++
          cookieEvents (some "c"), none) :=
  (intermediate_dispatch ⟨none, some ⟨some "c", true⟩, none, none⟩).2.1
    ⟨some "c", true⟩ rfl rfl

/-- C4 : For every search-result response carrying a sync-done control
with a final cookie and a `refreshDeletes` flag, the Watcher yields
`RefreshComplete` with autodelete equal to the negation of
`refreshDeletes`, then yields `SyncCookie` with the final cookie, and
then stops iterating: the remaining responses are never processed. -/
theorem search_result_terminates (db : DbModel) (res : WatchResponse)
    (rest : List WatchResponse) (c : String) (d : Bool)
    (htype : res.type = RES_SEARCH_RESULT)
    (hdone : findSyncDone res.ctrls = some ⟨some c, d⟩) :
    watch db (res :: rest)
      = ([Event.refreshComplete (!d), Event.syncCookie c], none) := by
  simp [watch, watchStep, htype, hdone, watchResSearchResult, cookieEvents,
    RES_SEARCH_ENTRY, RES_SEARCH_RESULT, RES_INTERMEDIATE]

/-- C4 witness : a concrete terminal response followed by a junk
response that is never reached. -/
theorem search_result_terminates_witness :
    watch ldapDb [⟨101, [], [RespCtrl.syncDone ⟨some "end", true⟩]⟩, ⟨0, [], []⟩]
      = ([Event.refreshComplete false, Event.syncCookie "end"], none) :=
  search_result_terminates ldapDb ⟨101, [], [RespCtrl.syncDone ⟨some "end", true⟩]⟩
    [⟨0, [], []⟩] "end" true rfl rfl

/-- C6 : For every decoded add/modify entry, a missing embedded
permanent identifier is populated from the sync-state control's
identifier, and an embedded identifier that disagrees with the
control's identifier aborts fatally with an identifier-mismatch error,
the entry never yielded. -/
theorem syncid_populate_or_mismatch (db : DbModel) (dn : String)
    (attrs : RawAttrs) (sync : SyncStateControl) (ocs : List String)
    (isUser : Bool)
    (hp : sync.state ≠ "present") (hd : sync.state ≠ "delete")
    (hocs : dictGet (ldapAttributeDict attrs) "objectclass" = some ocs)
    (hcl : classify (pyLower db.userObjectClass) (pyLower db.groupObjectClass)
      ocs = some isUser) :
    (ldapUuidGet db.uuidAttr ⟨dn, ldapAttributeDict attrs⟩ = some none →
      watchResSearchEntry db dn attrs sync
        = (Event.changed isUser
            (ldapUuidSet db.uuidAttr ⟨dn, ldapAttributeDict attrs⟩
              sync.entryUUID) :: cookieEvents sync.cookie, none)) ∧
    (∀ u, ldapUuidGet db.uuidAttr ⟨dn, ldapAttributeDict attrs⟩
        = some (some u) → u ≠ sync.entryUUID →
      watchResSearchEntry db dn attrs sync
        = ([], some (LdapError.syncIdMismatch sync.entryUUID u dn))) := by
  constructor
  · intro hug
    simp [watchResSearchEntry, hp, hd, hocs, hcl, hug]
  · intro u hug hne
    simp [watchResSearchEntry, hp, hd, hocs, hcl, hug, hne]

/-- C6 witness : a concrete entry whose embedded identifier (7)
disagrees with the control's identifier (5). -/
theorem syncid_populate_or_mismatch_witness :
    watchResSearchEntry ldapDb "cn=x"
      [("objectClass", ["person"]), ("entryUUID", [uuidStrS 7])]
      ⟨"add", 5, some "c"⟩
      = ([], some (LdapError.syncIdMismatch 5 7 "cn=x")) :=
  (syncid_populate_or_mismatch ldapDb "cn=x"
    [("objectClass", ["person"]), ("entryUUID", [uuidStrS 7])]
    ⟨"add", 5, some "c"⟩ ["person"] true
    (by decide) (by decide) rfl rfl).2 7 rfl (by decide)

/-- Helper : the object-class scan succeeds exactly when some declared
class matches the User or Group object class. -/
theorem classify_isSome_iff (uOC gOC : String) (vals : List String) :
    (classify uOC gOC vals).isSome
      ↔ ∃ v ∈ vals, pyLower v = uOC ∨ pyLower v = gOC := by
  induction vals with
  | nil => simp [classify]
  | cons v rest ih =>
      simp only [classify]
      by_cases h1 : pyLower v = uOC
      · rw [if_pos h1]
        simp [h1]
      · rw [if_neg h1]
        by_cases h2 : pyLower v = gOC
        · rw [if_pos h2]
          simp [h2]
        · rw [if_neg h2]
          simp [h1, h2, ih]

/-- C7 : For every decoded add/modify entry, classification into
exactly one of the User or Group variants succeeds if and only if at
least one declared object class matches a configured object-class
mapping; when none matches, processing raises a fatal
unrecognized-entry error and no event is yielded for that entry. -/
theorem object_class_classification (db : DbModel) (dn : String)
    (attrs : RawAttrs) (sync : SyncStateControl) (ocs : List String)
    (hp : sync.state ≠ "present") (hd : sync.state ≠ "delete")
    (hocs : dictGet (ldapAttributeDict attrs) "objectclass" = some ocs) :
    ((∃ v ∈ ocs, pyLower v = pyLower db.userObjectClass ∨
        pyLower v = pyLower db.groupObjectClass)
      ↔ (classify (pyLower db.userObjectClass) (pyLower db.groupObjectClass)
          ocs).isSome) ∧
    (classify (pyLower db.userObjectClass) (pyLower db.groupObjectClass) ocs
        = none →
      watchResSearchEntry db dn attrs sync
        = ([], some (LdapError.unrecognisedEntry dn))) := by
  constructor
  · exact (classify_isSome_iff _ _ _).symm
  · intro hcl
    simp [watchResSearchEntry, hp, hd, hocs, hcl]

/-- C7 witness : a concrete entry declaring only an unconfigured
object class. -/
theorem object_class_classification_witness :
    watchResSearchEntry ldapDb "cn=x" [("objectClass", ["top"])]
      ⟨"add", 5, none⟩
      = ([], some (LdapError.unrecognisedEntry "cn=x")) :=
  (object_class_classification ldapDb "cn=x" [("objectClass", ["top"])]
    ⟨"add", 5, none⟩ ["top"] (by decide) (by decide) rfl).2 rfl

/-- Helper : setting then getting the UUID attribute. -/
theorem ldapUuidGet_ldapUuidSet (name : String) (e : LdapEntry) (u : UUID)
    (hu : u < 2 ^ 128) :
    ldapUuidGet name (ldapUuidSet name e u) = some (some u) := by
  simp only [ldapUuidGet, ldapUuidSet, ldapAttrValues]
  rw [dictGet_dictSet]
  simp only [Option.getD_some, List.mapM_cons, List.mapM_nil]
  have hps : uuidParseStr (uuidStrS u) = some u := by
    simp only [uuidParseStr, uuidStrS]
    exact uuidParse_uuidStr hu
  simp [hps]

/-- C9 : Assigning the permanent identifier of an entry and reading it
back returns an equal UUID (the setter stores the string form under
the lower-cased attribute name, the getter parses it back);
consequently, after the Watcher populates a missing identifier from
the sync-state control, the yielded entry's uuid equals the control's
SyncId. -/
theorem uuid_attribute_roundtrip (name : String) (e : LdapEntry) (u : UUID)
    (hu : u < 2 ^ 128) :
    ldapUuidGet name (ldapUuidSet name e u) = some (some u) ∧
    (∀ (db : DbModel) (dn : String) (attrs : RawAttrs)
        (sync : SyncStateControl) (ocs : List String) (isUser : Bool),
      sync.entryUUID = u →
      sync.state ≠ "present" → sync.state ≠ "delete" →
      dictGet (ldapAttributeDict attrs) "objectclass" = some ocs →
      classify (pyLower db.userObjectClass) (pyLower db.groupObjectClass) ocs
        = some isUser →
      ldapUuidGet db.uuidAttr ⟨dn, ldapAttributeDict attrs⟩ = some none →
      ∃ entry2,
        watchResSearchEntry db dn attrs sync
          = (Event.changed isUser entry2 :: cookieEvents sync.cookie, none) ∧
        ldapUuidGet db.uuidAttr entry2 = some (some u)) := by
  constructor
  · exact ldapUuidGet_ldapUuidSet name e u hu
  · intro db dn attrs sync ocs isUser hsu hp hd hocs hcl hug
    refine ⟨ldapUuidSet db.uuidAttr ⟨dn, ldapAttributeDict attrs⟩ u, ?_, ?_⟩
    · simp [watchResSearchEntry, hp, hd, hocs, hcl, hug, hsu]
    · exact ldapUuidGet_ldapUuidSet db.uuidAttr ⟨dn, ldapAttributeDict attrs⟩ u hu

/-- C9 witness : set then get at a concrete entry and UUID. -/
theorem uuid_attribute_roundtrip_witness :
    ldapUuidGet "entryUUID" (ldapUuidSet "entryUUID" ⟨"cn=x", []⟩ 5)
      = some (some 5) :=
  (uuid_attribute_roundtrip "entryUUID" ⟨"cn=x", []⟩ 5 (by decide)).1

/-- Helper : lower-casing the keys of two raw mappings that differ
only in key casing gives equal dictionaries. -/
theorem ldapAttributeDict_congr {raw1 raw2 : RawAttrs}
    (h : List.Forall₂ (fun p q : String × List String =>
      pyLower p.1 = pyLower q.1 ∧ p.2 = q.2) raw1 raw2) :
    ldapAttributeDict raw1 = ldapAttributeDict raw2 := by
  have key : ∀ acc : RawAttrs,
      List.foldl (fun acc kv => dictSet acc (pyLower kv.1) kv.2) acc raw1
        = List.foldl (fun acc kv => dictSet acc (pyLower kv.1) kv.2) acc raw2 := by
    induction h with
    | nil => intro acc; rfl
    | cons hpq _ ih =>
        intro acc
        simp only [List.foldl_cons]
        rw [hpq.1, hpq.2]
        exact ih _
  exact key []

/-- C10 : Attribute access on every LdapEntry is total and
case-insensitive in the attribute name's letter-casing: an absent
attribute yields the empty list (multi-valued) or `none`
(single-valued) rather than raising, and two raw attribute maps
differing only in key casing produce entries with identical attribute
values. -/
theorem attribute_access_total_case_insensitive {α : Type}
    (parse : String → α) (name : String) :
    (∀ (dn : String) (raw : RawAttrs),
      dictGet (mkLdapEntry dn raw).attrs (pyLower name) = none →
      ldapAttrGetMulti parse name (mkLdapEntry dn raw) = [] ∧
      ldapAttrGetSingle parse name (mkLdapEntry dn raw) = none) ∧
    (∀ (dn : String) (raw1 raw2 : RawAttrs),
      List.Forall₂ (fun p q : String × List String =>
        pyLower p.1 = pyLower q.1 ∧ p.2 = q.2) raw1 raw2 →
      ldapAttrGetMulti parse name (mkLdapEntry dn raw1)
        = ldapAttrGetMulti parse name (mkLdapEntry dn raw2) ∧
      ldapAttrGetSingle parse name (mkLdapEntry dn raw1)
        = ldapAttrGetSingle parse name (mkLdapEntry dn raw2)) := by
  constructor
  · intro dn raw habs
    simp [ldapAttrGetMulti, ldapAttrGetSingle, ldapAttrValues, habs]
  · intro dn raw1 raw2 h
    have hdict : ldapAttributeDict raw1 = ldapAttributeDict raw2 :=
      ldapAttributeDict_congr h
    constructor <;>
      simp [ldapAttrGetMulti, ldapAttrGetSingle, ldapAttrValues, mkLdapEntry,
        hdict]

/-- C10 witness : the same value list under differently-cased keys. -/
theorem attribute_access_witness :
    ldapAttrGetMulti (fun s => s) "mail" (mkLdapEntry "dn" [("Mail", ["a"])])
      = ldapAttrGetMulti (fun s => s) "mail"
        (mkLdapEntry "dn" [("MAIL", ["a"])]) :=
  ((attribute_access_total_case_insensitive (fun s => s) "mail").2 "dn"
    [("Mail", ["a"])] [("MAIL", ["a"])]
    (List.Forall₂.cons ⟨rfl, rfl⟩ List.Forall₂.nil)).1

/-- C5 : The vendor nonconformance correction rewrites only the
autodelete field of `RefreshComplete` events — in one-shot mode with a
resumption cookie every `RefreshComplete` is forced to
`autodelete=False`; in persistent mode with no resumption cookie every
`RefreshComplete` is forced to `autodelete=True`; in the two remaining
combinations all events pass through unmodified; the stream is never
aborted (every event is passed on) and no other event kind is
altered. -/
theorem ipa_autodelete_correction (oneshot incremental : Bool)
    (events : List Event) :
    (ipaWatch oneshot incremental events).length = events.length ∧
    (oneshot = true → incremental = true → ∀ i : Nat,
      (ipaWatch oneshot incremental events)[i]?
        = (events[i]?).map (fun e =>
            match e with
            | Event.refreshComplete _ => Event.refreshComplete false
            | e => e)) ∧
    (oneshot = false → incremental = false → ∀ i : Nat,
      (ipaWatch oneshot incremental events)[i]?
        = (events[i]?).map (fun e =>
            match e with
            | Event.refreshComplete _ => Event.refreshComplete true
            | e => e)) ∧
    (oneshot = true → incremental = false →
      ipaWatch oneshot incremental events = events) ∧
    (oneshot = false → incremental = true →
      ipaWatch oneshot incremental events = events) ∧
    (∀ (i : Nat) (e : Event), events[i]? = some e →
      (∀ a, e ≠ Event.refreshComplete a) →
      (ipaWatch oneshot incremental events)[i]? = some e) := by
  refine ⟨by simp [ipaWatch], ?_, ?_, ?_, ?_, ?_⟩
  · rintro rfl rfl i
    rw [ipaWatch, List.getElem?_map]
    cases ho : events[i]? with
    | none => simp
    | some e =>
        simp only [Option.map_some']
        cases e <;> simp [ipaFix]
  · rintro rfl rfl i
    rw [ipaWatch, List.getElem?_map]
    cases ho : events[i]? with
    | none => simp
    | some e =>
        simp only [Option.map_some']
        cases e <;> simp [ipaFix]
  · rintro rfl rfl
    rw [ipaWatch]
    have hfix : ∀ e ∈ events, ipaFix true false e = id e := by
      intro e he; cases e <;> simp [ipaFix]
    rw [List.map_congr_left hfix, List.map_id]
  · rintro rfl rfl
    rw [ipaWatch]
    have hfix : ∀ e ∈ events, ipaFix false true e = id e := by
      intro e he; cases e <;> simp [ipaFix]
    rw [List.map_congr_left hfix, List.map_id]
  · intro i e ho hne
    rw [ipaWatch, List.getElem?_map, ho]
    simp only [Option.map_some']
    congr 1
    cases e with
    | refreshComplete a => exact absurd rfl (hne a)
    | _ => simp [ipaFix]

/-- C5 witness : one-shot incremental mode forces autodelete to
False. -/
theorem ipa_autodelete_correction_witness :
    (ipaWatch true true [Event.refreshComplete true])[0]?
      = some (Event.refreshComplete false) := by
  have h := (ipa_autodelete_correction true true
    [Event.refreshComplete true]).2.1 rfl rfl 0
  simpa using h

/-- Helper : entry processing never raises `LdapProtocolError` itself —
its failures are unrecognised-entry, identifier-mismatch, or builtin
escapes. -/
theorem watchResSearchEntry_no_protocolError (db : DbModel) (dn : String)
    (attrs : RawAttrs) (sync : SyncStateControl) (m : String) :
    (watchResSearchEntry db dn attrs sync).2
      ≠ some (LdapError.protocolError m) := by
  simp only [watchResSearchEntry]
  repeat' split
  all_goals simp

/-- Helper : one entry data tuple raises a protocol error exactly when
it lacks a sync-state control. -/
theorem entryTupleStep_protocolError_iff (db : DbModel) (d : WatchDatum) :
    (∃ m, (entryTupleStep db d).2 = some (LdapError.protocolError m))
      ↔ findSyncState d.2.2 = none := by
  obtain ⟨dn, payload, ctrls⟩ := d
  rcases hfs : findSyncState ctrls with - | sync
  · simp [entryTupleStep, hfs]
  · simp only [entryTupleStep, hfs]
    constructor
    · rintro ⟨m, hm⟩
      cases payload with
      | entryAttrs attrs =>
          exact absurd hm (watchResSearchEntry_no_protocolError db dn attrs sync m)
      | message msg => simp at hm
    · intro hnone
      simp at hnone

/-- Helper : the search-entry loop raises a protocol error exactly when
some data tuple lacks a sync-state control and every earlier tuple
processed without error. -/
theorem entriesStep_protocolError_iff (db : DbModel) :
    ∀ data : List WatchDatum,
      (∃ m, (entriesStep db data).2 = some (LdapError.protocolError m))
        ↔ ∃ pre d post, data = pre ++ d :: post ∧
            (∀ d2 ∈ pre, (entryTupleStep db d2).2 = none) ∧
            findSyncState d.2.2 = none := by
  intro data
  induction data with
  | nil =>
      simp only [entriesStep]
      constructor
      · rintro ⟨m, hm⟩
        simp at hm
      · rintro ⟨pre, d, post, heq, -, -⟩
        exact absurd heq (by simp)
  | cons d rest ih =>
      rcases hstep : entryTupleStep db d with ⟨evs, err⟩
      rcases err with - | e
      · -- tuple processed cleanly; the loop continues
        have hfs_ne : ¬(findSyncState d.2.2 = none) := by
          intro hfs
          obtain ⟨m, hm⟩ := (entryTupleStep_protocolError_iff db d).mpr hfs
          rw [hstep] at hm
          simp at hm
        simp only [entriesStep, hstep]
        rw [ih]
        constructor
        · rintro ⟨pre, d2, post, heq, hpre, hfss⟩
          exact ⟨d :: pre, d2, post, by simp [heq], by
            intro d3 hd3
            rcases List.mem_cons.mp hd3 with rfl | hd3
            · rw [hstep]
            · exact hpre d3 hd3, hfss⟩
        · rintro ⟨pre, d2, post, heq, hpre, hfss⟩
          cases pre with
          | nil =>
              simp only [List.nil_append, List.cons.injEq] at heq
              obtain ⟨rfl, rfl⟩ := heq
              exact absurd hfss hfs_ne
          | cons p pre2 =>
              simp only [List.cons_append, List.cons.injEq] at heq
              obtain ⟨rfl, heq2⟩ := heq
              exact ⟨pre2, d2, post, heq2, fun d3 hd3 =>
                hpre d3 (List.mem_cons_of_mem _ hd3), hfss⟩
      · -- tuple raised; the loop stops with this error
        have hiff := entryTupleStep_protocolError_iff db d
        rw [hstep] at hiff
        simp only [entriesStep, hstep]
        constructor
        · rintro ⟨m, hm⟩
          refine ⟨[], d, rest, rfl, by simp, ?_⟩
          exact hiff.mp ⟨m, hm⟩
        · rintro ⟨pre, d2, post, heq, hpre, hfss⟩
          cases pre with
          | nil =>
              simp only [List.nil_append, List.cons.injEq] at heq
              obtain ⟨rfl, -⟩ := heq
              exact hiff.mpr hfss
          | cons p pre2 =>
              simp only [List.cons_append, List.cons.injEq] at heq
              obtain ⟨rfl, -⟩ := heq
              have := hpre d (List.mem_cons_self ..)
              rw [hstep] at this
              simp at this

/-- Helper : the intermediate handler raises a protocol error exactly
when the message matches none of the four recognised shapes. -/
theorem watchResIntermediate_protocolError_iff (sync : SyncInfoMessage) :
    (∃ m, (watchResIntermediate sync).2 = some (LdapError.protocolError m))
      ↔ (sync.newcookie = none ∧ sync.refreshDelete = none ∧
         sync.refreshPresent = none ∧ sync.syncIdSet = none) := by
  cases hnc : sync.newcookie with
  | some c => simp [watchResIntermediate, hnc]
  | none =>
      cases hrd : sync.refreshDelete with
      | some rd => simp [watchResIntermediate, hnc, hrd]
      | none =>
          cases hrp : sync.refreshPresent with
          | some rp => simp [watchResIntermediate, hnc, hrd, hrp]
          | none =>
              cases hsis : sync.syncIdSet with
              | some sis => simp [watchResIntermediate, hnc, hrd, hrp, hsis]
              | none => simp [watchResIntermediate, hnc, hrd, hrp, hsis]

/-- Helper : a one-response stream yields a protocol error exactly when
its single step does. -/
theorem watch_single_protocolError_iff (db : DbModel) (res : WatchResponse) :
    (∃ evs m, watch db [res] = (evs, some (LdapError.protocolError m)))
      ↔ (∃ m, (watchStep db res).2.1 = some (LdapError.protocolError m)) := by
  rcases hstep : watchStep db res with ⟨evs, err, stop⟩
  rcases err with - | e
  · cases stop <;> simp [watch, hstep]
  · simp [watch, hstep]

/-- C8 (amended) : the Watcher aborts a response with a fatal protocol
error, yielding nothing further, exactly when the response is
malformed — a search-entry response with a data tuple lacking a
sync-state control (all earlier tuples processing cleanly), an
intermediate response lacking a sync-info message, an intermediate
response whose sync-info message matches none of the four recognised
shapes, a search-result response lacking a sync-done control, or a
response of any other kind than these three. -/
theorem watch_protocol_error_characterisation (db : DbModel)
    (res : WatchResponse) :
    ((∃ evs m, watch db [res] = (evs, some (LdapError.protocolError m)))
      ↔ ((res.type = RES_SEARCH_ENTRY ∧ ∃ pre d post,
            res.data = pre ++ d :: post ∧
            (∀ d2 ∈ pre, (entryTupleStep db d2).2 = none) ∧
            findSyncState d.2.2 = none) ∨
         (res.type = RES_INTERMEDIATE ∧ findSyncInfo res.data = none) ∨
         (res.type = RES_INTERMEDIATE ∧ ∃ msg,
            findSyncInfo res.data = some (WatchPayload.message msg) ∧
            msg.newcookie = none ∧ msg.refreshDelete = none ∧
            msg.refreshPresent = none ∧ msg.syncIdSet = none) ∨
         (res.type = RES_SEARCH_RESULT ∧ findSyncDone res.ctrls = none) ∨
         (res.type ≠ RES_SEARCH_ENTRY ∧ res.type ≠ RES_INTERMEDIATE ∧
          res.type ≠ RES_SEARCH_RESULT))) ∧
    (∀ (rest : List WatchResponse) (evs : List Event) (err : LdapError),
      watch db [res] = (evs, some err) →
      watch db (res :: rest) = (evs, some err)) := by
  constructor
  · rw [watch_single_protocolError_iff]
    by_cases h1 : res.type = RES_SEARCH_ENTRY
    · simp only [watchStep, if_pos h1]
      rw [entriesStep_protocolError_iff]
      simp [h1, RES_SEARCH_ENTRY, RES_INTERMEDIATE, RES_SEARCH_RESULT]
    · by_cases h2 : res.type = RES_INTERMEDIATE
      · simp only [watchStep, if_neg h1, if_pos h2]
        rcases hfsi : findSyncInfo res.data with - | payload
        · simp [h1, h2, hfsi, RES_SEARCH_ENTRY, RES_INTERMEDIATE,
            RES_SEARCH_RESULT]
        · cases payload with
          | message msg =>
              simp only []
              rw [watchResIntermediate_protocolError_iff]
              simp [h1, h2, hfsi, RES_SEARCH_ENTRY, RES_INTERMEDIATE,
                RES_SEARCH_RESULT]
          | entryAttrs a =>
              simp [h1, h2, hfsi, RES_SEARCH_ENTRY, RES_INTERMEDIATE,
                RES_SEARCH_RESULT]
      · by_cases h3 : res.type = RES_SEARCH_RESULT
        · simp only [watchStep, if_neg h1, if_neg h2, if_pos h3]
          rcases hfd : findSyncDone res.ctrls with - | sync
          · simp [h1, h2, h3, hfd, RES_SEARCH_ENTRY, RES_INTERMEDIATE,
              RES_SEARCH_RESULT]
          · simp [h1, h2, h3, hfd, RES_SEARCH_ENTRY, RES_INTERMEDIATE,
              RES_SEARCH_RESULT]
        · simp only [watchStep, if_neg h1, if_neg h2, if_neg h3]
          simp [h1, h2, h3]
  · intro rest evs err h
    rcases hstep : watchStep db res with ⟨evs2, err2, stop2⟩
    rcases err2 with - | e2
    · cases stop2 <;> simp [watch, hstep] at h
    · simp only [watch, hstep] at h ⊢
      exact h

/-- C8 counterexample : an intermediate response that does carry a
sync-info message (so it is not in the claim's list of malformed
shapes) still aborts the stream with a protocol error, because the
message matches none of the recognised shapes. -/
theorem watch_protocol_error_counterexample :
    watch ldapDb [⟨RES_INTERMEDIATE,
        [(syncInfoResponseName, WatchPayload.message ⟨none, none, none, none⟩,
          [])], []⟩]
      = ([], some (LdapError.protocolError "Unrecognised syncInfoValue")) ∧
    findSyncInfo [(syncInfoResponseName,
        WatchPayload.message ⟨none, none, none, none⟩, [])]
      = some (WatchPayload.message ⟨none, none, none, none⟩) := by
  constructor <;> rfl

/-- C8 witness : a response of unknown kind aborts the stream with a
protocol error and nothing further is processed. -/
theorem watch_protocol_error_characterisation_witness :
    watch ldapDb [⟨77, [], []⟩, ⟨101, [], []⟩]
      = ([], some (LdapError.protocolError "Unrecognised message type")) :=
  (watch_protocol_error_characterisation ldapDb ⟨77, [], []⟩).2
    [⟨101, [], []⟩] [] (LdapError.protocolError "Unrecognised message type") rfl

/-! ## The trace codec (`LdapResult.write` / `LdapResult.read`)

One raw protocol response is serialised as comment lines
`# result: <type>` and `# control: <oid> <true|false> <base64 value>`,
a bare `#` separator, then one LDIF record per data tuple with any
entry-level controls appended as a synthetic multi-valued `control`
attribute.  The external `ldif` library (line folding, value escaping)
is abstracted as the identity codec on records — a record is a
distinguished name plus an attribute dictionary — while everything the
repository's own code does (header lines and their regex, the control
LDIF codec with base64, the `control`-attribute plumbing, the
intermediate-message special case) is modelled in full.  `bytes` is
`List Nat`; `str.encode`/`bytes.decode` are modelled on the ASCII data
these paths carry. -/

/-- A Python `str` on the codec side. -/
abbrev PyStr := List Char

/-- A Python `bytes` value (one `Nat` per byte). -/
abbrev Bytes := List Nat

/-- Python whitespace (`\s` over the ASCII range these files use). -/
def isPySpace (c : Char) : Bool :=
  c.toNat = 32 || (9 ≤ c.toNat && c.toNat ≤ 13)

/-- ASCII decimal digit (`\d` over ASCII). -/
def isDigitChar (c : Char) : Bool :=
  48 ≤ c.toNat && c.toNat ≤ 57

/-- `s.rstrip()` : drop trailing whitespace. -/
def rstrip (s : PyStr) : PyStr :=
  (s.reverse.dropWhile isPySpace).reverse

/-- `str.encode()` (ASCII payloads). -/
def strEncode (s : PyStr) : Bytes := s.map Char.toNat

/-- `bytes.decode()` (ASCII payloads; non-ASCII is not produced by the
writer and is rejected here). -/
def strDecode (b : Bytes) : Option PyStr :=
  b.mapM fun n => if n < 128 then some (Char.ofNat n) else none

/-- The base64 alphabet character for a 6-bit value. -/
def b64Char (k : Nat) : Char :=
  if k < 26 then Char.ofNat (65 + k)
  else if k < 52 then Char.ofNat (97 + (k - 26))
  else if k < 62 then Char.ofNat (48 + (k - 52))
  else if k = 62 then '+'
  else '/'

/-- The 6-bit value of a base64 alphabet character. -/
def b64Val (c : Char) : Option Nat :=
  if 65 ≤ c.toNat ∧ c.toNat ≤ 90 then some (c.toNat - 65)
  else if 97 ≤ c.toNat ∧ c.toNat ≤ 122 then some (c.toNat - 97 + 26)
  else if 48 ≤ c.toNat ∧ c.toNat ≤ 57 then some (c.toNat - 48 + 52)
  else if c = '+' then some 62
  else if c = '/' then some 63
  else none

/-- `base64.b64encode` over byte lists. -/
def b64encode : Bytes → PyStr
  | [] => []
  | [b0] => [b64Char (b0 / 4), b64Char (b0 % 4 * 16), '=', '=']
  | [b0, b1] =>
      [b64Char (b0 / 4), b64Char (b0 % 4 * 16 + b1 / 16),
       b64Char (b1 % 16 * 4), '=']
  | b0 :: b1 :: b2 :: rest =>
      b64Char (b0 / 4) :: b64Char (b0 % 4 * 16 + b1 / 16) ::
      b64Char (b1 % 16 * 4 + b2 / 64) :: b64Char (b2 % 64) ::
      b64encode rest

/-- `base64.b64decode` over character lists (strict four-character
groups with trailing padding, as the writer produces). -/
def b64decode : PyStr → Option Bytes
  | [] => some []
  | c0 :: c1 :: c2 :: c3 :: rest =>
      if c2 = '=' ∧ c3 = '=' ∧ rest = [] then
        (b64Val c0).bind fun v0 => (b64Val c1).map fun v1 =>
          [v0 * 4 + v1 / 16]
      else if c3 = '=' ∧ rest = [] then
        (b64Val c0).bind fun v0 => (b64Val c1).bind fun v1 =>
          (b64Val c2).map fun v2 =>
            [v0 * 4 + v1 / 16, v1 % 16 * 16 + v2 / 4]
      else
        (b64Val c0).bind fun v0 => (b64Val c1).bind fun v1 =>
          (b64Val c2).bind fun v2 => (b64Val c3).bind fun v3 =>
            (b64decode rest).map fun bs =>
              (v0 * 4 + v1 / 16) :: (v1 % 16 * 16 + v2 / 4) ::
              (v2 % 4 * 64 + v3) :: bs
  | _ => none

/-- The decimal digit character for `n < 10`. -/
def digitChar (n : Nat) : Char := Char.ofNat (48 + n)

/-- Fuel-driven decimal rendering (`'%d' % n`); the fuel bounds the
digit count. -/
def natToDecAux : Nat → Nat → PyStr
  | 0, _ => []
  | fuel + 1, n =>
      if n < 10 then [digitChar n]
      else natToDecAux fuel (n / 10) ++ [digitChar (n % 10)]

/-- `'%d' % n`. -/
def natToDec (n : Nat) : PyStr := natToDecAux (n + 1) n

/-- `int(s)` on a plain digit string. -/
def decFromDigits (cs : PyStr) : Nat :=
  cs.foldl (fun a c => a * 10 + (c.toNat - 48)) 0

/-- An LDAP response control as the trace codec sees it
(`LdapResponseControl`): type OID, criticality, raw encoded value. -/
structure TraceCtrl where
  controlType : PyStr
  criticality : Bool
  encodedControlValue : Bytes
deriving DecidableEq, Repr

/-- `LdapResponseControl.to_ldif` :
`'%s %s %s' % (controlType, criticality, b64encode(value))`. -/
def to_ldif (c : TraceCtrl) : PyStr :=
  c.controlType ++ ' ' ::
    (if c.criticality then "true".data else "false".data) ++ ' ' ::
    b64encode c.encodedControlValue

/-- The tokenizer behind `LdapResponseControl.RE`
(`(\S+)\s+(true|false)\s+(\S+)` with `fullmatch`): exactly three
whitespace-free words separated by whitespace runs. -/
def parseThreeWords (s : PyStr) : Option (PyStr × PyStr × PyStr) :=
  let w1 := s.takeWhile fun c => !isPySpace c
  let r1 := s.dropWhile fun c => !isPySpace c
  if w1 = [] then none else
  let sp1 := r1.takeWhile isPySpace
  let r2 := r1.dropWhile isPySpace
  if sp1 = [] then none else
  let w2 := r2.takeWhile fun c => !isPySpace c
  let r3 := r2.dropWhile fun c => !isPySpace c
  if w2 = [] then none else
  let sp2 := r3.takeWhile isPySpace
  let r4 := r3.dropWhile isPySpace
  if sp2 = [] then none else
  let w3 := r4.takeWhile fun c => !isPySpace c
  let r5 := r4.dropWhile fun c => !isPySpace c
  if w3 = [] ∨ r5 ≠ [] then none else some (w1, w2, w3)

/-- `LdapResponseControl.from_ldif` : regex match (the second word must
be the literal `true` or `false`), then base64-decode the value.
`none` models `LdapInvalidControlError` and the base64 error. -/
def from_ldif (s : PyStr) : Option TraceCtrl :=
  match parseThreeWords s with
  | none => none
  | some (w1, w2, w3) =>
      if w2 = "true".data then
        (b64decode w3).map fun v => ⟨w1, true, v⟩
      else if w2 = "false".data then
        (b64decode w3).map fun v => ⟨w1, false, v⟩
      else none

/-- The LDIF attribute dictionary of one record. -/
abbrev LdifAttrs := List (PyStr × List Bytes)

/-- One LDIF record: distinguished name and attributes (the external
`ldif` library's text form is abstracted as this record structure). -/
abbrev LdifRecord := PyStr × LdifAttrs

/-- A serialised trace of one response: the comment header lines and
the LDIF records, in file order (lines after the first non-matching
header line are `#` comments, which the LDIF parser skips). -/
structure TraceFile where
  header : List PyStr
  records : List LdifRecord
deriving DecidableEq, Repr

/-- The payload of one `LdapResult.data` tuple: decoded entry
attributes, or the raw encoded intermediate-message value. -/
inductive TracePayload where
  | attrs (m : LdifAttrs)
  | value (v : Bytes)
deriving DecidableEq, Repr

/-- One `LdapResult.data` tuple. -/
abbrev TraceDataTuple := PyStr × TracePayload × List TraceCtrl

/-- `LdapResult` : the dataclass holding one raw protocol response. -/
structure TraceResult where
  type : Option Nat
  data : List TraceDataTuple
  msgid : Option Nat
  ctrls : List TraceCtrl
  name : Option PyStr
  value : Option Bytes
deriving DecidableEq, Repr

/-- `# result: %d`. -/
def resultLine (t : Nat) : PyStr := "# result: ".data ++ natToDec t

/-- `# control: %s`. -/
def controlLine (c : TraceCtrl) : PyStr := "# control: ".data ++ to_ldif c

/-- `record.setdefault('control', []); record['control'].append(v)`. -/
def addControlVal : LdifAttrs → Bytes → LdifAttrs
  | [], v => [("control".data, [v])]
  | (k, vs) :: rest, v =>
      if k = "control".data then (k, vs ++ [v]) :: rest
      else (k, vs) :: addControlVal rest v

/-- Append the encoded form of each control to the record's `control`
attribute (the `for ctrl in ctrls` loop of `write`). -/
def addControls (rec : LdifAttrs) (vals : List Bytes) : LdifAttrs :=
  vals.foldl addControlVal rec

/-- `entry.pop('control', [])`. -/
def popControl : LdifAttrs → List Bytes × LdifAttrs
  | [] => ([], [])
  | (k, vs) :: rest =>
      if k = "control".data then (vs, rest)
      else
        let r := popControl rest
        (r.1, (k, vs) :: r.2)

/-- One record of `LdapResult.write` : for an intermediate response a
synthetic control built from the response name and raw value replaces
the record body; otherwise the attribute dict is copied.  `none`
models the `TypeError` a payload of the wrong kind would raise. -/
def writeRecord (t : Nat) (d : TraceDataTuple) : Option LdifRecord :=
  if t = RES_INTERMEDIATE then
    match d with
    | (dn, TracePayload.value v, ctrls) =>
        some ([], addControls [("control".data, [strEncode (to_ldif ⟨dn, false, v⟩)])]
          (ctrls.map fun c => strEncode (to_ldif c)))
    | _ => none
  else
    match d with
    | (dn, TracePayload.attrs m, ctrls) =>
        some (dn, addControls m (ctrls.map fun c => strEncode (to_ldif c)))
    | _ => none

/-- `LdapResult.write` : serialise one response (`none` models the
`TypeError` raised when `type` is unset or a payload has the wrong
kind). -/
def LdapResultWrite (r : TraceResult) : Option TraceFile :=
  match r.type with
  | none => none
  | some t =>
      (r.data.mapM (writeRecord t)).map fun recs =>
        ⟨resultLine t :: r.ctrls.map controlLine ++ ["#".data], recs⟩

/-- The outcome of matching one header line against `LdapResult.RE`. -/
inductive HeaderMatch where
  | result (digits : PyStr)
  | control (rest : PyStr)
deriving DecidableEq, Repr

/-- `LdapResult.RE.fullmatch(line.rstrip())` :
`#\s+((result:\s+(?P<result>\d+))|(control:\s+(?P<control>.*)))`. -/
def matchHeaderLine (line : PyStr) : Option HeaderMatch :=
  match rstrip line with
  | [] => none
  | c :: rest =>
      if c = '#' then
        let sp := rest.takeWhile isPySpace
        let r1 := rest.dropWhile isPySpace
        if sp = [] then none
        else if leadsWith "result:".data r1 then
          let r2 := r1.drop 7
          let sp2 := r2.takeWhile isPySpace
          let r3 := r2.dropWhile isPySpace
          if sp2 ≠ [] ∧ r3 ≠ [] ∧ r3.all isDigitChar then
            some (HeaderMatch.result r3)
          else none
        else if leadsWith "control:".data r1 then
          let r2 := r1.drop 8
          let sp2 := r2.takeWhile isPySpace
          let r3 := r2.dropWhile isPySpace
          if sp2 ≠ [] then some (HeaderMatch.control r3) else none
        else none
      else none

/-- The header-reading loop of `LdapResult.read` : fold the matching
comment lines into the type and response-level controls, stopping at
the first non-matching line; a control line that fails to parse raises
(`none`). -/
def readHeader : List PyStr → Option Nat → List TraceCtrl →
    Option (Option Nat × List TraceCtrl)
  | [], t, cs => some (t, cs)
  | line :: rest, t, cs =>
      match matchHeaderLine line with
      | none => some (t, cs)
      | some (HeaderMatch.result digits) =>
          readHeader rest (some (decFromDigits digits)) cs
      | some (HeaderMatch.control s) =>
          if s = [] then readHeader rest t cs
          else
            match from_ldif s with
            | none => none
            | some c => readHeader rest t (cs ++ [c])

/-- One record of `LdapResult.read` : pop the synthetic `control`
attribute, decode each control, and for an intermediate response pull
the first control back out as the response name and raw value. -/
def readRecord (t : Option Nat) (rec : LdifRecord) : Option TraceDataTuple :=
  let pc := popControl rec.2
  (pc.1.mapM fun x => (strDecode x).bind from_ldif).bind fun ctrls =>
    if t = some RES_INTERMEDIATE then
      match ctrls with
      | [] => none
      | c :: rest =>
          some (c.controlType, TracePayload.value c.encodedControlValue, rest)
    else
      some (rec.1, TracePayload.attrs pc.2, ctrls)

/-- `LdapResult.read` : parse one serialised response. -/
def LdapResultRead (f : TraceFile) : Option TraceResult :=
  (readHeader f.header none []).bind fun tc =>
    (f.records.mapM (readRecord tc.1)).map fun data =>
      ⟨tc.1, data, none, tc.2, none, none⟩

/-- A well-formed response control: non-empty whitespace-free ASCII
type OID and a non-empty byte-valued encoded value. -/
def wfCtrl (c : TraceCtrl) : Prop :=
  c.controlType ≠ [] ∧
  (∀ ch ∈ c.controlType, isPySpace ch = false ∧ ch.toNat < 128) ∧
  c.encodedControlValue ≠ [] ∧
  (∀ b ∈ c.encodedControlValue, b < 256)

/-- A well-formed data tuple for a response of type `t` : well-formed
entry controls and a payload matching the response kind (raw value for
intermediate responses — whose synthetic control must be well formed —
and an attribute dict with no literal `control` attribute otherwise). -/
def wfDatum (t : Nat) (d : TraceDataTuple) : Prop :=
  (∀ c ∈ d.2.2, wfCtrl c) ∧
  (match d.2.1 with
   | TracePayload.value v => t = RES_INTERMEDIATE ∧ wfCtrl ⟨d.1, false, v⟩
   | TracePayload.attrs m =>
       t ≠ RES_INTERMEDIATE ∧ ∀ kv ∈ m, kv.1 ≠ "control".data)

/-- A well-formed raw protocol response, ready for serialisation. -/
def wellFormedResult (r : TraceResult) : Prop :=
  match r.type with
  | none => False
  | some t => (∀ c ∈ r.ctrls, wfCtrl c) ∧ ∀ d ∈ r.data, wfDatum t d

instance wfCtrl.dec (c : TraceCtrl) : Decidable (wfCtrl c) := by
  unfold wfCtrl
  infer_instance

instance wfDatum.dec (t : Nat) (d : TraceDataTuple) : Decidable (wfDatum t d) := by
  obtain ⟨dn, p, cs⟩ := d
  cases p <;> · unfold wfDatum; exact inferInstance

instance wellFormedResult.dec (r : TraceResult) :
    Decidable (wellFormedResult r) := by
  obtain ⟨ty, data, msgid, cs, name, val⟩ := r
  cases ty <;> · unfold wellFormedResult; exact inferInstance

/-- The serialised fields of a response: `msgid`, `name` and `value`
are not written to the trace and read back as `None`. -/
def resetUnserialised (r : TraceResult) : TraceResult :=
  { r with msgid := none, name := none, value := none }

theorem takeWhile_boundary {p : Char → Bool} :
    ∀ (xs : PyStr) (y : Char) (t : PyStr), (∀ c ∈ xs, p c = true) →
      p y = false →
      (xs ++ y :: t).takeWhile p = xs ∧ (xs ++ y :: t).dropWhile p = y :: t := by
  intro xs
  induction xs with
  | nil =>
      intro y t _ hy
      simp [List.takeWhile_cons, List.dropWhile_cons, hy]
  | cons x xs ih =>
      intro y t hall hy
      have hx : p x = true := hall x (List.mem_cons_self ..)
      have hr := ih y t (fun c hc => hall c (List.mem_cons_of_mem _ hc)) hy
      simp [List.takeWhile_cons, List.dropWhile_cons, hx, hr.1, hr.2]

theorem rstrip_append (xs ys : PyStr) (hne : ys ≠ [])
    (hall : ∀ c ∈ ys, isPySpace c = false) : rstrip (xs ++ ys) = xs ++ ys := by
  unfold rstrip
  rw [List.reverse_append]
  cases hrev : ys.reverse with
  | nil => exact absurd (by simpa using hrev) hne
  | cons c r =>
      have hc : c ∈ ys := by
        rw [← List.mem_reverse, hrev]
        exact List.mem_cons_self ..
      rw [List.cons_append, List.dropWhile_cons, hall c hc]
      simp only [Bool.false_eq_true, if_false]
      rw [← List.cons_append, ← hrev, List.reverse_append, List.reverse_reverse,
        List.reverse_reverse]

theorem b64Val_b64Char : ∀ k, k < 64 → b64Val (b64Char k) = some k := by decide

theorem b64Char_props : ∀ k, k < 64 → isPySpace (b64Char k) = false ∧
    (b64Char k).toNat < 128 ∧ b64Char k ≠ '=' := by decide

theorem b64encode_chars :
    ∀ (n : Nat) (b : Bytes), b.length ≤ n → (∀ x ∈ b, x < 256) →
      ∀ c ∈ b64encode b, isPySpace c = false ∧ c.toNat < 128 := by
  intro n
  induction n with
  | zero =>
      intro b hlen _ c hc
      rcases b with - | ⟨b0, rest⟩
      · simp [b64encode] at hc
      · simp at hlen
  | succ n ih =>
      intro b hlen hlt c hc
      rcases b with - | ⟨b0, - | ⟨b1, - | ⟨b2, rest⟩⟩⟩
      · simp [b64encode] at hc
      · have h0 : b0 < 256 := hlt b0 (by simp)
        simp only [b64encode, List.mem_cons, List.not_mem_nil, or_false] at hc
        rcases hc with rfl | rfl | rfl | rfl
        · exact ⟨(b64Char_props _ (by omega)).1, (b64Char_props _ (by omega)).2.1⟩
        · exact ⟨(b64Char_props _ (by omega)).1, (b64Char_props _ (by omega)).2.1⟩
        · exact ⟨by decide, by decide⟩
        · exact ⟨by decide, by decide⟩
      · have h0 : b0 < 256 := hlt b0 (by simp)
        have h1 : b1 < 256 := hlt b1 (by simp)
        simp only [b64encode, List.mem_cons, List.not_mem_nil, or_false] at hc
        rcases hc with rfl | rfl | rfl | rfl
        · exact ⟨(b64Char_props _ (by omega)).1, (b64Char_props _ (by omega)).2.1⟩
        · exact ⟨(b64Char_props _ (by omega)).1, (b64Char_props _ (by omega)).2.1⟩
        · exact ⟨(b64Char_props _ (by omega)).1, (b64Char_props _ (by omega)).2.1⟩
        · exact ⟨by decide, by decide⟩
      · have h0 : b0 < 256 := hlt b0 (by simp)
        have h1 : b1 < 256 := hlt b1 (by simp)
        have h2 : b2 < 256 := hlt b2 (by simp)
        simp only [b64encode, List.mem_cons] at hc
        rcases hc with rfl | rfl | rfl | rfl | hc
        · exact ⟨(b64Char_props _ (by omega)).1, (b64Char_props _ (by omega)).2.1⟩
        · exact ⟨(b64Char_props _ (by omega)).1, (b64Char_props _ (by omega)).2.1⟩
        · exact ⟨(b64Char_props _ (by omega)).1, (b64Char_props _ (by omega)).2.1⟩
        · exact ⟨(b64Char_props _ (by omega)).1, (b64Char_props _ (by omega)).2.1⟩
        · exact ih rest (by simp at hlen; omega)
            (fun x hx => hlt x (by simp [hx])) c hc

theorem b64encode_ne_nil {b : Bytes} (h : b ≠ []) : b64encode b ≠ [] := by
  rcases b with - | ⟨b0, - | ⟨b1, - | ⟨b2, rest⟩⟩⟩
  · exact absurd rfl h
  · simp [b64encode]
  · simp [b64encode]
  · simp [b64encode]

theorem b64_roundtrip :
    ∀ (n : Nat) (b : Bytes), b.length ≤ n → (∀ x ∈ b, x < 256) →
      b64decode (b64encode b) = some b := by
  intro n
  induction n with
  | zero =>
      intro b hlen _
      rcases b with - | ⟨b0, rest⟩
      · rfl
      · simp at hlen
  | succ n ih =>
      intro b hlen hlt
      rcases b with - | ⟨b0, - | ⟨b1, - | ⟨b2, rest⟩⟩⟩
      · rfl
      · have h0 : b0 < 256 := hlt b0 (by simp)
        simp only [b64encode, b64decode]
        rw [if_pos (by simp),
          b64Val_b64Char (b0 / 4) (by omega),
          b64Val_b64Char (b0 % 4 * 16) (by omega)]
        simp only [Option.some_bind, Option.map_some']
        have e : b0 / 4 * 4 + b0 % 4 * 16 / 16 = b0 := by omega
        rw [e]
      · have h0 : b0 < 256 := hlt b0 (by simp)
        have h1 : b1 < 256 := hlt b1 (by simp)
        simp only [b64encode, b64decode]
        rw [if_neg (fun hcontra =>
          (b64Char_props (b1 % 16 * 4) (by omega)).2.2 hcontra.1)]
        rw [if_pos (by simp),
          b64Val_b64Char (b0 / 4) (by omega),
          b64Val_b64Char (b0 % 4 * 16 + b1 / 16) (by omega),
          b64Val_b64Char (b1 % 16 * 4) (by omega)]
        simp only [Option.some_bind, Option.map_some']
        have e1 : b0 / 4 * 4 + (b0 % 4 * 16 + b1 / 16) / 16 = b0 := by omega
        have e2 : (b0 % 4 * 16 + b1 / 16) % 16 * 16 + b1 % 16 * 4 / 4 = b1 := by
          omega
        rw [e1, e2]
      · have h0 : b0 < 256 := hlt b0 (by simp)
        have h1 : b1 < 256 := hlt b1 (by simp)
        have h2 : b2 < 256 := hlt b2 (by simp)
        simp only [b64encode, b64decode]
        rw [if_neg (fun hcontra =>
          (b64Char_props (b1 % 16 * 4 + b2 / 64) (by omega)).2.2 hcontra.1)]
        rw [if_neg (fun hcontra =>
          (b64Char_props (b2 % 64) (by omega)).2.2 hcontra.1)]
        rw [b64Val_b64Char (b0 / 4) (by omega),
          b64Val_b64Char (b0 % 4 * 16 + b1 / 16) (by omega),
          b64Val_b64Char (b1 % 16 * 4 + b2 / 64) (by omega),
          b64Val_b64Char (b2 % 64) (by omega),
          ih rest (by simp at hlen; omega) (fun x hx => hlt x (by simp [hx]))]
        simp only [Option.some_bind, Option.map_some']
        have e1 : b0 / 4 * 4 + (b0 % 4 * 16 + b1 / 16) / 16 = b0 := by omega
        have e2 : (b0 % 4 * 16 + b1 / 16) % 16 * 16 +
            (b1 % 16 * 4 + b2 / 64) / 4 = b1 := by omega
        have e3 : (b1 % 16 * 4 + b2 / 64) % 4 * 64 + b2 % 64 = b2 := by omega
        rw [e1, e2, e3]

theorem digitChar_props : ∀ n, n < 10 → isDigitChar (digitChar n) = true ∧
    (digitChar n).toNat = 48 + n ∧ isPySpace (digitChar n) = false := by decide

theorem isDigitChar_not_space {c : Char} (h : isDigitChar c = true) :
    isPySpace c = false := by
  unfold isDigitChar at h
  unfold isPySpace
  simp only [Bool.and_eq_true, decide_eq_true_eq] at h
  simp only [Bool.or_eq_false_iff, Bool.and_eq_false_iff,
    decide_eq_false_iff_not]
  omega

theorem natToDecAux_spec :
    ∀ fuel n, n < 10 ^ (fuel + 1) →
      natToDecAux (fuel + 1) n ≠ [] ∧
      (∀ c ∈ natToDecAux (fuel + 1) n, isDigitChar c = true) ∧
      ∀ a, (natToDecAux (fuel + 1) n).foldl
          (fun a c => a * 10 + (c.toNat - 48)) a
        = a * 10 ^ (natToDecAux (fuel + 1) n).length + n := by
  intro fuel
  induction fuel with
  | zero =>
      intro n hn
      have h10 : n < 10 := by simpa using hn
      simp only [natToDecAux, if_pos h10]
      refine ⟨by simp, ?_, ?_⟩
      · intro c hc
        simp at hc
        subst hc
        exact (digitChar_props n h10).1
      · intro a
        simp only [List.foldl_cons, List.foldl_nil, List.length_singleton]
        rw [(digitChar_props n h10).2.1]
        omega
  | succ fuel ih =>
      intro n hn
      by_cases h10 : n < 10
      · simp only [natToDecAux, if_pos h10]
        refine ⟨by simp, ?_, ?_⟩
        · intro c hc
          simp at hc
          subst hc
          exact (digitChar_props n h10).1
        · intro a
          simp only [List.foldl_cons, List.foldl_nil, List.length_singleton]
          rw [(digitChar_props n h10).2.1]
          omega
      · have hdiv : n / 10 < 10 ^ (fuel + 1) := by
          have hp : (10 : Nat) ^ (fuel + 2) = 10 ^ (fuel + 1) * 10 := by ring
          rw [hp] at hn
          exact Nat.div_lt_of_lt_mul (by omega)
        obtain ⟨hne, hdig, hfold⟩ := ih (n / 10) hdiv
        have hunfold : natToDecAux (fuel + 1 + 1) n
            = natToDecAux (fuel + 1) (n / 10) ++ [digitChar (n % 10)] := by
          conv_lhs => rw [natToDecAux]
          rw [if_neg h10]
        rw [hunfold]
        refine ⟨by simp, ?_, ?_⟩
        · intro c hc
          rw [List.mem_append] at hc
          rcases hc with hc | hc
          · exact hdig c hc
          · simp at hc
            subst hc
            exact (digitChar_props (n % 10) (by omega)).1
        · intro a
          rw [List.foldl_append, hfold a, List.length_append,
            List.length_singleton, List.foldl_cons, List.foldl_nil,
            (digitChar_props (n % 10) (by omega)).2.1]
          have hmod : 48 + n % 10 - 48 = n % 10 := by omega
          rw [hmod]
          have hdm : 10 * (n / 10) + n % 10 = n := Nat.div_add_mod n 10
          set L := (natToDecAux (fuel + 1) (n / 10)).length
          have e : (a * 10 ^ L + n / 10) * 10 + n % 10
              = a * (10 ^ L * 10) + (10 * (n / 10) + n % 10) := by ring
          rw [e, hdm, pow_succ]

theorem natToDec_spec (n : Nat) :
    natToDec n ≠ [] ∧ (∀ c ∈ natToDec n, isDigitChar c = true) ∧
      decFromDigits (natToDec n) = n := by
  have hlt : n < 10 ^ (n + 1) := by
    have h1 : n < 10 ^ n := Nat.lt_pow_self (by norm_num) n
    have h2 : (10 : Nat) ^ n ≤ 10 ^ (n + 1) :=
      Nat.pow_le_pow_right (by norm_num) (by omega)
    omega
  obtain ⟨hne, hdig, hfold⟩ := natToDecAux_spec n n hlt
  refine ⟨hne, hdig, ?_⟩
  unfold decFromDigits natToDec
  rw [hfold 0]
  simp

theorem strDecode_strEncode {s : PyStr} (h : ∀ c ∈ s, c.toNat < 128) :
    strDecode (strEncode s) = some s := by
  induction s with
  | nil => rfl
  | cons c rest ih =>
      have hc : c.toNat < 128 := h c (List.mem_cons_self ..)
      have ihr := ih fun c2 hc2 => h c2 (List.mem_cons_of_mem _ hc2)
      simp only [strEncode, List.map_cons, strDecode, List.mapM_cons] at ihr ⊢
      rw [if_pos hc]
      simp only [Char.ofNat_toNat]
      cases hrest : (rest.map Char.toNat).mapM
          (fun n => if n < 128 then some (Char.ofNat n) else none) with
      | none => rw [hrest] at ihr; simp at ihr
      | some l =>
          rw [hrest] at ihr
          simp at ihr
          subst ihr
          simp [hrest]

theorem takeWhile_all {p : Char → Bool} :
    ∀ l : PyStr, (∀ c ∈ l, p c = true) →
      l.takeWhile p = l ∧ l.dropWhile p = [] := by
  intro l
  induction l with
  | nil => intro _; simp
  | cons c rest ih =>
      intro hall
      have hc : p c = true := hall c (List.mem_cons_self ..)
      have hr := ih fun c2 hc2 => hall c2 (List.mem_cons_of_mem _ hc2)
      simp [List.takeWhile_cons, List.dropWhile_cons, hc, hr.1, hr.2]

theorem parseThreeWords_build (w1 w2 w3 : PyStr)
    (h1 : w1 ≠ []) (h1s : ∀ c ∈ w1, isPySpace c = false)
    (h2 : w2 ≠ []) (h2s : ∀ c ∈ w2, isPySpace c = false)
    (h3 : w3 ≠ []) (h3s : ∀ c ∈ w3, isPySpace c = false) :
    parseThreeWords (w1 ++ ' ' :: w2 ++ ' ' :: w3) = some (w1, w2, w3) := by
  obtain ⟨a2, as2, hw2⟩ := List.exists_cons_of_ne_nil h2
  obtain ⟨a3, as3, hw3⟩ := List.exists_cons_of_ne_nil h3
  have ha2 : isPySpace a2 = false := h2s a2 (by rw [hw2]; exact List.mem_cons_self ..)
  have ha3 : isPySpace a3 = false := h3s a3 (by rw [hw3]; exact List.mem_cons_self ..)
  have hshape : w1 ++ ' ' :: w2 ++ ' ' :: w3
      = w1 ++ ' ' :: (w2 ++ ' ' :: w3) := by
    simp [List.append_assoc]
  simp only [parseThreeWords, hshape]
  have hb1 := takeWhile_boundary (p := fun ch => !isPySpace ch) w1 ' '
    (w2 ++ ' ' :: w3) (fun ch hch => by simp [h1s ch hch]) (by decide)
  rw [hb1.1, hb1.2, if_neg h1]
  have hshape2 : ' ' :: (w2 ++ ' ' :: w3) = [' '] ++ a2 :: (as2 ++ ' ' :: w3) := by
    rw [hw2]; simp
  rw [hshape2]
  have hb2 := takeWhile_boundary (p := isPySpace) [' '] a2 (as2 ++ ' ' :: w3)
    (by decide) ha2
  rw [hb2.1, hb2.2]
  simp only [ne_eq, List.cons_ne_nil, not_false_eq_true, reduceCtorEq, if_neg,
    if_false]
  have hshape3 : a2 :: (as2 ++ ' ' :: w3) = (a2 :: as2) ++ ' ' :: w3 := by simp
  rw [hshape3]
  have hb3 := takeWhile_boundary (p := fun ch => !isPySpace ch) (a2 :: as2) ' '
    w3 (fun ch hch => by simp [h2s ch (hw2 ▸ hch)]) (by decide)
  rw [hb3.1, hb3.2]
  simp only [ne_eq, List.cons_ne_nil, not_false_eq_true, reduceCtorEq, if_neg,
    if_false]
  have hshape4 : ' ' :: w3 = [' '] ++ a3 :: as3 := by rw [hw3]; simp
  rw [hshape4]
  have hb4 := takeWhile_boundary (p := isPySpace) [' '] a3 as3 (by decide) ha3
  rw [hb4.1, hb4.2]
  simp only [ne_eq, List.cons_ne_nil, not_false_eq_true, reduceCtorEq, if_neg,
    if_false]
  have hb5 := takeWhile_all (p := fun ch => !isPySpace ch) (a3 :: as3)
    (fun ch hch => by simp [h3s ch (hw3 ▸ hch)])
  rw [hb5.1, hb5.2]
  simp [hw2, hw3]

theorem to_ldif_parse {c : TraceCtrl} (hwf : wfCtrl c) :
    parseThreeWords (to_ldif c)
      = some (c.controlType, (if c.criticality then "true".data else "false".data),
          b64encode c.encodedControlValue) := by
  have hb64 := b64encode_chars c.encodedControlValue.length
    c.encodedControlValue le_rfl hwf.2.2.2
  apply parseThreeWords_build
  · exact hwf.1
  · exact fun ch hch => (hwf.2.1 ch hch).1
  · cases c.criticality <;> decide
  · cases c.criticality <;> decide
  · exact b64encode_ne_nil hwf.2.2.1
  · exact fun ch hch => (hb64 ch hch).1

theorem from_ldif_to_ldif {c : TraceCtrl} (hwf : wfCtrl c) :
    from_ldif (to_ldif c) = some c := by
  obtain ⟨oid, crit, v⟩ := c
  have hrt := b64_roundtrip v.length v le_rfl hwf.2.2.2
  rw [from_ldif, to_ldif_parse hwf]
  cases crit <;> simp [hrt]

theorem to_ldif_ne_nil {c : TraceCtrl} (hwf : wfCtrl c) : to_ldif c ≠ [] := by
  obtain ⟨o0, os, ho⟩ := List.exists_cons_of_ne_nil hwf.1
  simp [to_ldif, ho]

theorem to_ldif_ascii {c : TraceCtrl} (hwf : wfCtrl c) :
    ∀ ch ∈ to_ldif c, ch.toNat < 128 := by
  intro ch hch
  have hb64 := b64encode_chars c.encodedControlValue.length
    c.encodedControlValue le_rfl hwf.2.2.2
  simp only [to_ldif, List.mem_append, List.mem_cons] at hch
  rcases hch with (h | rfl | h) | rfl | h
  · exact (hwf.2.1 ch h).2
  · decide
  · revert h
    cases c.criticality
    · intro h; fin_cases h <;> decide
    · intro h; fin_cases h <;> decide
  · decide
  · exact (hb64 ch h).2

theorem matchHeaderLine_result (t : Nat) :
    matchHeaderLine (resultLine t) = some (HeaderMatch.result (natToDec t)) := by
  obtain ⟨hne, hdig, -⟩ := natToDec_spec t
  have hnospace : ∀ c ∈ natToDec t, isPySpace c = false :=
    fun c hc => isDigitChar_not_space (hdig c hc)
  have hstrip : rstrip (resultLine t) = resultLine t :=
    rstrip_append _ _ hne hnospace
  obtain ⟨d, ds, hcons⟩ := List.exists_cons_of_ne_nil hne
  have hall : (natToDec t).all isDigitChar = true := by
    rw [List.all_eq_true]
    exact hdig
  have hdns : isPySpace d = false := by
    apply hnospace
    rw [hcons]
    exact List.mem_cons_self ..
  have hform : resultLine t = '#' :: ' ' :: 'r' :: 'e' :: 's' :: 'u' :: 'l' ::
      't' :: ':' :: ' ' :: natToDec t := rfl
  rw [matchHeaderLine, hstrip, hform]
  simp only []
  rw [if_pos trivial]
  have hb1 := takeWhile_boundary (p := isPySpace) [' ']
    'r' ('e' :: 's' :: 'u' :: 'l' :: 't' :: ':' :: ' ' :: natToDec t)
    (by decide) (by decide)
  rw [show (' ' :: 'r' :: 'e' :: 's' :: 'u' :: 'l' :: 't' :: ':' :: ' ' ::
      natToDec t) = [' '] ++ 'r' :: ('e' :: 's' :: 'u' :: 'l' :: 't' :: ':' ::
      ' ' :: natToDec t) from rfl]
  rw [hb1.1, hb1.2]
  simp only [ne_eq, List.cons_ne_nil, not_false_eq_true, reduceCtorEq, if_neg,
    if_false]
  rw [if_pos (show leadsWith "result:".data ('r' :: 'e' :: 's' :: 'u' :: 'l' ::
    't' :: ':' :: ' ' :: natToDec t) = true from rfl)]
  rw [show List.drop 7 ('r' :: 'e' :: 's' :: 'u' :: 'l' :: 't' :: ':' :: ' ' ::
    natToDec t) = ' ' :: natToDec t from rfl]
  rw [hcons]
  have hb2 := takeWhile_boundary (p := isPySpace) [' '] d ds (by decide) hdns
  rw [show (' ' :: d :: ds) = [' '] ++ d :: ds from rfl]
  rw [hb2.1, hb2.2]
  rw [if_pos ⟨by simp, by simp, by rw [← hcons]; exact hall⟩]

theorem matchHeaderLine_control {c : TraceCtrl} (hwf : wfCtrl c) :
    matchHeaderLine (controlLine c) = some (HeaderMatch.control (to_ldif c)) := by
  obtain ⟨o0, os, ho⟩ := List.exists_cons_of_ne_nil hwf.1
  have ho0 : isPySpace o0 = false := by
    have : o0 ∈ c.controlType := by rw [ho]; exact List.mem_cons_self ..
    exact (hwf.2.1 o0 this).1
  have hb64 := b64encode_chars c.encodedControlValue.length
    c.encodedControlValue le_rfl hwf.2.2.2
  have hstrip : rstrip (controlLine c) = controlLine c := by
    have hsplit : controlLine c
        = ("# control: ".data ++ c.controlType ++ ' ' ::
            (if c.criticality then "true".data else "false".data) ++ [' ']) ++
          b64encode c.encodedControlValue := by
      simp [controlLine, to_ldif, List.append_assoc]
    rw [hsplit]
    rw [rstrip_append _ _ (b64encode_ne_nil hwf.2.2.1)
      (fun ch hch => (hb64 ch hch).1)]
  have hform : controlLine c = '#' :: ' ' :: 'c' :: 'o' :: 'n' :: 't' :: 'r' ::
      'o' :: 'l' :: ':' :: ' ' :: to_ldif c := rfl
  rw [matchHeaderLine, hstrip, hform]
  simp only []
  rw [if_pos trivial]
  have hb1 := takeWhile_boundary (p := isPySpace) [' ']
    'c' ('o' :: 'n' :: 't' :: 'r' :: 'o' :: 'l' :: ':' :: ' ' :: to_ldif c)
    (by decide) (by decide)
  rw [show (' ' :: 'c' :: 'o' :: 'n' :: 't' :: 'r' :: 'o' :: 'l' :: ':' ::
      ' ' :: to_ldif c) = [' '] ++ 'c' :: ('o' :: 'n' :: 't' :: 'r' :: 'o' ::
      'l' :: ':' :: ' ' :: to_ldif c) from rfl]
  rw [hb1.1, hb1.2]
  simp only [ne_eq, List.cons_ne_nil, not_false_eq_true, reduceCtorEq, if_neg,
    if_false]
  rw [if_neg (show ¬leadsWith "result:".data ('c' :: 'o' :: 'n' :: 't' :: 'r' ::
    'o' :: 'l' :: ':' :: ' ' :: to_ldif c) = true by simp [leadsWith])]
  rw [if_pos (show leadsWith "control:".data ('c' :: 'o' :: 'n' :: 't' :: 'r' ::
    'o' :: 'l' :: ':' :: ' ' :: to_ldif c) = true from rfl)]
  rw [show List.drop 8 ('c' :: 'o' :: 'n' :: 't' :: 'r' :: 'o' :: 'l' :: ':' ::
    ' ' :: to_ldif c) = ' ' :: to_ldif c from rfl]
  have hto : to_ldif c = o0 :: (os ++ ' ' ::
      (if c.criticality then "true".data else "false".data) ++ ' ' ::
      b64encode c.encodedControlValue) := by
    rw [to_ldif, ho]
    simp
  rw [hto]
  have hb2 := takeWhile_boundary (p := isPySpace) [' '] o0 (os ++ ' ' ::
      (if c.criticality then "true".data else "false".data) ++ ' ' ::
      b64encode c.encodedControlValue) (by decide) ho0
  rw [show (' ' :: o0 :: (os ++ ' ' ::
      (if c.criticality then "true".data else "false".data) ++ ' ' ::
      b64encode c.encodedControlValue)) = [' '] ++ o0 :: (os ++ ' ' ::
      (if c.criticality then "true".data else "false".data) ++ ' ' ::
      b64encode c.encodedControlValue) from rfl]
  rw [hb2.1, hb2.2]
  rw [if_pos (by simp)]

theorem matchHeaderLine_sep : matchHeaderLine ("#".data) = none := by rfl

theorem readHeader_controls (ctrls : List TraceCtrl)
    (hw : ∀ c ∈ ctrls, wfCtrl c) :
    ∀ t0 acc, readHeader (ctrls.map controlLine ++ ["#".data]) t0 acc
      = some (t0, acc ++ ctrls) := by
  induction ctrls with
  | nil =>
      intro t0 acc
      simp only [List.map_nil, List.nil_append]
      rw [readHeader, matchHeaderLine_sep]
      simp
  | cons c cs ih =>
      intro t0 acc
      have hwc : wfCtrl c := hw c (List.mem_cons_self ..)
      simp only [List.map_cons, List.cons_append]
      rw [readHeader, matchHeaderLine_control hwc]
      simp only []
      rw [if_neg (to_ldif_ne_nil hwc), from_ldif_to_ldif hwc]
      show readHeader (cs.map controlLine ++ ["#".data]) t0 (acc ++ [c])
        = some (t0, acc ++ c :: cs)
      rw [ih (fun c2 hc2 => hw c2 (List.mem_cons_of_mem _ hc2)) t0 (acc ++ [c])]
      simp

theorem readHeader_write (t : Nat) (ctrls : List TraceCtrl)
    (hw : ∀ c ∈ ctrls, wfCtrl c) :
    readHeader (resultLine t :: ctrls.map controlLine ++ ["#".data]) none []
      = some (some t, ctrls) := by
  simp only [List.cons_append]
  rw [readHeader, matchHeaderLine_result t]
  simp only []
  rw [(natToDec_spec t).2.2, readHeader_controls ctrls hw]
  simp

theorem addControlVal_no_control :
    ∀ (m : LdifAttrs), (∀ kv ∈ m, kv.1 ≠ "control".data) → ∀ (v : Bytes),
      addControlVal m v = m ++ [("control".data, [v])] := by
  intro m
  induction m with
  | nil => intro _ v; rfl
  | cons kv rest ih =>
      intro h v
      obtain ⟨k, vs⟩ := kv
      have hk : k ≠ "control".data := h (k, vs) (List.mem_cons_self ..)
      simp only [addControlVal, if_neg hk, List.cons_append]
      rw [ih (fun kv2 h2 => h kv2 (List.mem_cons_of_mem _ h2)) v]

theorem addControlVal_append :
    ∀ (m : LdifAttrs), (∀ kv ∈ m, kv.1 ≠ "control".data) →
      ∀ (v : Bytes) (vs : List Bytes),
      addControlVal (m ++ [("control".data, vs)]) v
        = m ++ [("control".data, vs ++ [v])] := by
  intro m
  induction m with
  | nil => intro _ v vs; simp [addControlVal]
  | cons kv rest ih =>
      intro h v vs
      obtain ⟨k, vs2⟩ := kv
      have hk : k ≠ "control".data := h (k, vs2) (List.mem_cons_self ..)
      rw [List.cons_append, addControlVal, if_neg hk,
        ih (fun kv2 h2 => h kv2 (List.mem_cons_of_mem _ h2)) v vs,
        List.cons_append]

theorem addControls_keyed {m : LdifAttrs}
    (h : ∀ kv ∈ m, kv.1 ≠ "control".data) :
    ∀ (vals vs : List Bytes),
      addControls (m ++ [("control".data, vs)]) vals
        = m ++ [("control".data, vs ++ vals)] := by
  intro vals
  induction vals with
  | nil => intro vs; simp [addControls]
  | cons v vt ih =>
      intro vs
      show addControls (addControlVal (m ++ [("control".data, vs)]) v) vt
        = m ++ [("control".data, vs ++ v :: vt)]
      rw [addControlVal_append m h v vs, ih (vs ++ [v])]
      simp

theorem addControls_no_control {m : LdifAttrs}
    (h : ∀ kv ∈ m, kv.1 ≠ "control".data) :
    ∀ (vals : List Bytes), vals ≠ [] →
      addControls m vals = m ++ [("control".data, vals)] := by
  intro vals hne
  cases vals with
  | nil => exact absurd rfl hne
  | cons v vt =>
      show addControls (addControlVal m v) vt = _
      rw [addControlVal_no_control m h v, addControls_keyed h vt [v]]
      simp

theorem popControl_no_control :
    ∀ (m : LdifAttrs), (∀ kv ∈ m, kv.1 ≠ "control".data) →
      popControl m = ([], m) := by
  intro m
  induction m with
  | nil => intro _; rfl
  | cons kv rest ih =>
      intro h
      obtain ⟨k, vs⟩ := kv
      have hk : k ≠ "control".data := h (k, vs) (List.mem_cons_self ..)
      simp only [popControl, if_neg hk]
      simp [ih fun kv2 h2 => h kv2 (List.mem_cons_of_mem _ h2)]

theorem popControl_append :
    ∀ (m : LdifAttrs), (∀ kv ∈ m, kv.1 ≠ "control".data) →
      ∀ (vs : List Bytes),
      popControl (m ++ [("control".data, vs)]) = (vs, m) := by
  intro m
  induction m with
  | nil => intro _ vs; simp [popControl]
  | cons kv rest ih =>
      intro h vs
      obtain ⟨k, vs2⟩ := kv
      have hk : k ≠ "control".data := h (k, vs2) (List.mem_cons_self ..)
      simp only [List.cons_append, popControl, if_neg hk]
      simp [ih (fun kv2 h2 => h kv2 (List.mem_cons_of_mem _ h2)) vs]

theorem decode_encoded_ctrls :
    ∀ (ctrls : List TraceCtrl), (∀ c ∈ ctrls, wfCtrl c) →
      (ctrls.map fun c => strEncode (to_ldif c)).mapM
          (fun x => (strDecode x).bind from_ldif) = some ctrls := by
  intro ctrls
  induction ctrls with
  | nil => intro _; rfl
  | cons c cs ih =>
      intro h
      have hc : wfCtrl c := h c (List.mem_cons_self ..)
      have ihr := ih fun c2 h2 => h c2 (List.mem_cons_of_mem _ h2)
      simp only [List.map_cons, List.mapM_cons]
      rw [show (strDecode (strEncode (to_ldif c))).bind from_ldif = some c by
        rw [strDecode_strEncode (to_ldif_ascii hc), Option.some_bind,
          from_ldif_to_ldif hc]]
      rw [ihr]
      rfl

theorem readRecord_writeRecord {t : Nat} {d : TraceDataTuple}
    (hwf : wfDatum t d) :
    ∃ rec, writeRecord t d = some rec ∧ readRecord (some t) rec = some d := by
  obtain ⟨dn, p, cs⟩ := d
  cases p with
  | value v =>
      obtain ⟨hcs, ht, hv⟩ := hwf
      subst ht
      have hwall : ∀ c2 ∈ (⟨dn, false, v⟩ : TraceCtrl) :: cs, wfCtrl c2 := by
        intro c2 hc2
        rcases List.mem_cons.mp hc2 with rfl | hc2
        · exact hv
        · exact hcs c2 hc2
      have hdec := decode_encoded_ctrls (⟨dn, false, v⟩ :: cs) hwall
      simp only [List.map_cons] at hdec
      have hpc := popControl_append [] (by simp)
        (strEncode (to_ldif ⟨dn, false, v⟩) ::
          cs.map fun c => strEncode (to_ldif c))
      simp only [List.nil_append] at hpc
      have hkey := addControls_keyed (m := ([] : LdifAttrs)) (by simp)
        (cs.map fun c => strEncode (to_ldif c))
        [strEncode (to_ldif ⟨dn, false, v⟩)]
      simp only [List.nil_append, List.singleton_append] at hkey
      refine ⟨([], [("control".data,
          strEncode (to_ldif ⟨dn, false, v⟩) ::
            cs.map fun c => strEncode (to_ldif c))]), ?_, ?_⟩
      · rw [writeRecord, if_pos rfl]
        simp only []
        rw [hkey]
      · rw [readRecord]
        simp only []
        rw [hpc]
        simp only []
        rw [hdec]
        simp
  | attrs m =>
      obtain ⟨hcs, ht, hm⟩ := hwf
      refine ⟨(dn, addControls m (cs.map fun c => strEncode (to_ldif c))),
        ?_, ?_⟩
      · rw [writeRecord, if_neg ht]
      · cases cs with
        | nil =>
            show readRecord (some t) (dn, m)
              = some (dn, TracePayload.attrs m, [])
            rw [readRecord]
            simp only []
            rw [popControl_no_control m hm]
            simp only [List.mapM_nil, Option.pure_def, Option.some_bind]
            simp [ht]
        | cons c ct =>
            have hvals : ((c :: ct).map fun c => strEncode (to_ldif c)) ≠ [] :=
              by simp
            rw [addControls_no_control hm _ hvals]
            rw [readRecord]
            simp only []
            rw [popControl_append m hm]
            simp only []
            rw [decode_encoded_ctrls (c :: ct) hcs]
            simp [ht]

theorem mapM_writeRecord {t : Nat} :
    ∀ (data : List TraceDataTuple), (∀ d ∈ data, wfDatum t d) →
      ∃ recs, data.mapM (writeRecord t) = some recs ∧
        recs.mapM (readRecord (some t)) = some data := by
  intro data
  induction data with
  | nil => intro _; exact ⟨[], rfl, rfl⟩
  | cons d ds ih =>
      intro h
      obtain ⟨rec, hw, hr⟩ := readRecord_writeRecord (h d (List.mem_cons_self ..))
      obtain ⟨recs, hws, hrs⟩ := ih fun d2 h2 => h d2 (List.mem_cons_of_mem _ h2)
      refine ⟨rec :: recs, ?_, ?_⟩
      · rw [List.mapM_cons, hw, hws]
        rfl
      · rw [List.mapM_cons, hr, hrs]
        rfl

theorem read_write_single {r : TraceResult} (hwf : wellFormedResult r) :
    (LdapResultWrite r).bind LdapResultRead = some (resetUnserialised r) := by
  obtain ⟨ty, data, msgid, ctrls, nm, val⟩ := r
  cases ty with
  | none => exact absurd hwf (by simp [wellFormedResult])
  | some t =>
      obtain ⟨hctrls, hdata⟩ := hwf
      obtain ⟨recs, hws, hrs⟩ := mapM_writeRecord data hdata
      simp only [LdapResultWrite, hws, Option.map_some', Option.some_bind]
      simp only [LdapResultRead, readHeader_write t ctrls hctrls,
        Option.some_bind, hrs, Option.map_some']
      simp [resetUnserialised]

/-- C1 (corrected): for every well-formed sequence of raw protocol
responses, the Trace Recorder round trip (`LdapResult.read` applied to
the output of `LdapResult.write`, response by response) is exact on the
serialised fields: it yields the same sequence with `msgid`, `name` and
`value` read back as `None`; response-level versus entry-level control
placement and intermediate-message records are reconstructed exactly.
The claim's unqualified `decode(encode(r)) == r` fails for responses
carrying a `msgid` (see the counterexample). -/
theorem trace_roundtrip_amended (rs : List TraceResult)
    (hwf : ∀ r ∈ rs, wellFormedResult r) :
    (rs.mapM LdapResultWrite).bind (fun fs => fs.mapM LdapResultRead)
      = some (rs.map resetUnserialised) := by
  revert hwf
  induction rs with
  | nil => intro _; rfl
  | cons r rest ih =>
      intro hwf
      have h1 := read_write_single (hwf r (List.mem_cons_self ..))
      have ih2 := ih fun r2 h2 => hwf r2 (List.mem_cons_of_mem _ h2)
      cases hw : LdapResultWrite r with
      | none => rw [hw] at h1; simp at h1
      | some f =>
          rw [hw] at h1
          simp only [Option.some_bind] at h1
          cases hws : List.mapM LdapResultWrite rest with
          | none => rw [hws] at ih2; simp at ih2
          | some fs =>
              rw [hws] at ih2
              simp only [Option.some_bind] at ih2
              rw [List.mapM_cons, hw, hws]
              show List.mapM LdapResultRead (f :: fs)
                = some ((r :: rest).map resetUnserialised)
              rw [List.mapM_cons, h1, ih2]
              rfl

/-- C1 counterexample: a well-formed response carrying a `msgid` fails
the claim's unqualified round trip `decode(encode(r)) == r`:
`LdapResult.write` does not serialise `msgid` (nor `name` / `value`),
`LdapResult.read` leaves them `None`, and dataclass equality compares
them. -/
theorem trace_roundtrip_counterexample :
    wellFormedResult (⟨some 100, [], some 1, [], none, none⟩ : TraceResult) ∧
    ((([(⟨some 100, [], some 1, [], none, none⟩ : TraceResult)]).mapM
        LdapResultWrite).bind fun fs => fs.mapM LdapResultRead)
      ≠ some [(⟨some 100, [], some 1, [], none, none⟩ : TraceResult)] := by
  refine ⟨?_, ?_⟩ <;> decide

/-- A small concrete two-response trace: a search-entry response with
entry attributes and controls at both levels, and an intermediate
response. -/
def traceSample : List TraceResult :=
  [⟨some 100,
    [(['u', 'i', 'd'], TracePayload.attrs [(['c', 'n'], [[65, 66]])],
      [⟨['o'], true, [5]⟩])],
    some 7, [⟨['p'], false, [2, 3]⟩], none, none⟩,
   ⟨some 121,
    [(['n', 'm'], TracePayload.value [9, 0], [⟨['q'], true, [4]⟩])],
    none, [], none, none⟩]

/-- C1 witness: the amended round trip evaluated on the concrete
two-response trace `traceSample`. -/
theorem trace_roundtrip_amended_witness :
    (∀ r ∈ traceSample, wellFormedResult r) ∧
    ((traceSample.mapM LdapResultWrite).bind fun fs =>
        fs.mapM LdapResultRead)
      = some (traceSample.map resetUnserialised) :=
  ⟨by decide, trace_roundtrip_amended traceSample (by decide)⟩

end Idiosync
